import Mathlib

/-!
Verification development for the BRM rule platform (bfs_approvals.py, core.py).

The Python modules are shallowly embedded: database reads appear as explicit
input lists (one list per queried table), database mutations appear as returned
lists, exceptions appear as `Except String`, and the outcome of executing a
rule's SQL against the database appears as an explicit `SqlOutcome` input.
Rule identifiers are `Nat`, SQL integer flags are `Int`.  Python `dict`/`set`
values are modelled as insertion-ordered association/duplicate-free lists; the
properties proved below do not depend on iteration order.  All definitions are
translated from the source; where a claim needs a definition written from the
specification's wording instead (for comparison with the code), this is stated
in its doc comment.
-/

namespace BRM

/-- A value in a fetched SQL row (integer, string or NULL). -/
inductive SqlVal where
  | intVal (i : Int)
  | strVal (s : String)
  | nullVal
deriving DecidableEq

/-- The observable outcome of handing a SQL statement to the database:
either a list of fetched rows or a raised exception with its text. -/
inductive SqlOutcome where
  | resultRows (rows : List (List SqlVal))
  | raised (msg : String)
deriving DecidableEq

/-- A row of BRM_RULES, restricted to the columns this core reads. -/
structure BrmRule where
  ruleId : Nat
  parentRuleId : Option Nat
  criticalRule : Int
  isGlobal : Int
  operationType : String
  decisionTableId : Option Nat
  ownerGroup : Option String
  approvalStatus : String
  status : String
deriving DecidableEq

/-- Adjacency dictionary of `load_rule_relationships`: a mapping from a rule id
to the (insertion-ordered, duplicate-free) set of related rule ids. -/
abbrev Adj := List (Nat × List Nat)

/-- Dictionary lookup `adjacency.get(k, [])` (keys in the association list are
unique, so first-match lookup is dict lookup). -/
def adjGet (adj : Adj) (k : Nat) : List Nat :=
  match adj with
  | [] => []
  | (k2, vs) :: rest => if k2 == k then vs else adjGet rest k

/-- The effect of `adjacency.setdefault(k, set()).add(v)`. -/
def adjAdd (adj : Adj) (k v : Nat) : Adj :=
  match adj with
  | [] => [(k, [v])]
  | (k2, vs) :: rest =>
    if k2 == k then (k2, if v ∈ vs then vs else vs ++ [v]) :: rest
    else (k2, vs) :: adjAdd rest k v

/-- Python set `add` on a list modelling a set. -/
def addIfAbsent (l : List Nat) (x : Nat) : List Nat :=
  if x ∈ l then l else l ++ [x]

/-- Building a Python set from a traversal: insertion-ordered deduplication. -/
def dedupKeepFirst (l : List Nat) : List Nat :=
  l.foldl addIfAbsent []

/-- Truthiness of a PARENT_RULE_ID column value (`if pid:` in Python is false
both for NULL and for 0). -/
def pidTruthy : Option Nat → Bool
  | none => false
  | some p => p != 0

/-- Whitespace class of the regex `\s` (ASCII). -/
def isWsChar (c : Char) : Bool :=
  c == ' ' || c == '\t' || c == '\n' || c == '\r' || c == '\x0b' || c == '\x0c'

/-- Numeric value of a matched digit group, as Python `int(m)`. -/
def digitsToNat (ds : List Char) : Nat :=
  ds.foldl (fun a c => a * 10 + (c.toNat - '0'.toNat)) 0

/-- Case-insensitive test for the four literal characters of `Rule`
(the effect of `re.IGNORECASE` on the literal part of the pattern). -/
def isRuleWord (w : List Char) : Bool :=
  match w with
  | [a, b, c, d] =>
    (a == 'r' || a == 'R') && (b == 'u' || b == 'U') &&
    (c == 'l' || c == 'L') && (d == 'e' || d == 'E')
  | _ => false

/-- One attempt of the compiled pattern `Rule\s*(\d+)` at the current position:
match `Rule` case-insensitively, greedily skip whitespace, then require one or
more digits; return the digit group's value and the remaining text. -/
def tryMatchAt (s : List Char) : Option (Nat × List Char) :=
  match s with
  | a :: b :: c :: d :: rest =>
    if isRuleWord [a, b, c, d] then
      let rest2 := rest.dropWhile isWsChar
      let ds := rest2.takeWhile Char.isDigit
      if ds.isEmpty then none else some (digitsToNat ds, rest2.dropWhile Char.isDigit)
    else none
  | _ => none

theorem length_dropWhile_le2 (p : Char → Bool) (l : List Char) :
    (l.dropWhile p).length ≤ l.length := by
  induction l with
  | nil => simp
  | cons c cs ih =>
    by_cases h : p c
    · simp only [List.dropWhile_cons, h, if_true]
      exact Nat.le_trans ih (by simp)
    · simp [List.dropWhile_cons, h]

theorem tryMatchAt_rest_length {s : List Char} {n : Nat} {rest : List Char}
    (h : tryMatchAt s = some (n, rest)) : rest.length < s.length := by
  match s with
  | [] => simp [tryMatchAt] at h
  | [a] => simp [tryMatchAt] at h
  | [a, b] => simp [tryMatchAt] at h
  | [a, b, c] => simp [tryMatchAt] at h
  | a :: b :: c :: d :: r =>
    simp only [tryMatchAt] at h
    by_cases hw : isRuleWord [a, b, c, d]
    · simp only [hw, if_true] at h
      by_cases he : (List.takeWhile Char.isDigit (List.dropWhile isWsChar r)).isEmpty
      · simp [he] at h
      · simp only [he, if_false] at h
        have h2 : rest = List.dropWhile Char.isDigit (List.dropWhile isWsChar r) :=
          (Prod.mk.injEq _ _ _ _ ▸ (Option.some.injEq _ _ ▸ h)).2.symm
        have l1 : (List.dropWhile Char.isDigit (List.dropWhile isWsChar r)).length ≤
            (List.dropWhile isWsChar r).length := length_dropWhile_le2 _ _
        have l2 : (List.dropWhile isWsChar r).length ≤ r.length := length_dropWhile_le2 _ _
        simp only [h2, List.length_cons]
        omega
    · simp [hw] at h

/-- `pattern.findall(expr)` for `pattern = re.compile(r"Rule\s*(\d+)", re.IGNORECASE)`,
already converted to integers: left-to-right non-overlapping scan. -/
def findRuleRefs (s : List Char) : List Nat :=
  match s with
  | [] => []
  | cHead :: cs =>
    match hm : tryMatchAt (cHead :: cs) with
    | some p => p.1 :: findRuleRefs p.2
    | none => findRuleRefs cs
termination_by s.length
decreasing_by
  · exact tryMatchAt_rest_length hm
  · simp

/-- The composite-rules loop of `load_rule_relationships`: for every
`(COMPOSITE_RULE_ID, LOGIC_EXPR)` row with a truthy expression, add the edge
`subRule -> composite` for every match of the pattern. -/
def compositeStep (a : Adj) (compositeRows : List (Nat × Option String)) : Adj :=
  compositeRows.foldl
    (fun a2 row =>
      match row.2 with
      | none => a2
      | some expr =>
        if expr = "" then a2
        else (findRuleRefs expr.data).foldl (fun a3 sub => adjAdd a3 sub row.1) a2)
    a

/-- The adjacency dictionary of `load_rule_relationships`, built from the four
relationship sources in source order: parent-child edges, global-critical
links, bidirectional conflicts, composite references. -/
def loadAdjacency (ruleRows : List (Nat × Option Nat)) (gcrRows : List (Nat × Nat))
    (conflictRows : List (Nat × Nat × Nat)) (compositeRows : List (Nat × Option String)) :
    Adj :=
  let a1 := ruleRows.foldl
    (fun a row =>
      match row.2 with
      | some pid => if pid != 0 then adjAdd a pid row.1 else a
      | none => a)
    []
  let a2 := gcrRows.foldl (fun a row => adjAdd a row.1 row.2) a1
  let a3 := conflictRows.foldl (fun a row => adjAdd (adjAdd a row.1 row.2.1) row.2.1 row.1) a2
  compositeStep a3 compositeRows

/-- Child rule ids recorded in `parent_map` (those with a truthy parent id). -/
def parentKeys (ruleRows : List (Nat × Option Nat)) : List Nat :=
  (ruleRows.filter (fun row => pidTruthy row.2)).map Prod.fst

/-- `roots`: all rule ids of BRM_RULES that are not keys of `parent_map`. -/
def loadRoots (ruleRows : List (Nat × Option Nat)) : List Nat :=
  (dedupKeepFirst (ruleRows.map Prod.fst)).filter (fun rid => ¬ rid ∈ parentKeys ruleRows)

/-- All rule ids mentioned in the adjacency dictionary (keys and values);
used only to justify termination of the breadth-first loops. -/
def adjNodesList (adj : Adj) : List Nat :=
  adj.map Prod.fst ++ (adj.map Prod.snd).flatten

theorem adjGet_subset_nodes (adj : Adj) (k : Nat) :
    ∀ x ∈ adjGet adj k, x ∈ adjNodesList adj := by
  induction adj with
  | nil => intro x hx; simp [adjGet] at hx
  | cons head rest ih =>
    obtain ⟨k2, vs⟩ := head
    intro x hx
    simp only [adjGet] at hx
    by_cases h : (k2 == k)
    · rw [if_pos h] at hx
      unfold adjNodesList
      apply List.mem_append_right
      rw [List.mem_flatten]
      exact ⟨vs, List.mem_map_of_mem Prod.snd (List.mem_cons_self _ _), hx⟩
    · rw [if_neg h] at hx
      have h2 := ih x hx
      unfold adjNodesList at h2 ⊢
      simp only [List.map_cons, List.mem_append, List.mem_cons, List.flatten_cons] at h2 ⊢
      rcases h2 with h3 | h3
      · exact Or.inl (Or.inr h3)
      · exact Or.inr (Or.inr h3)

/-- Number of graph or queue nodes not yet visited; the decreasing measure of
the breadth-first loops. -/
def bfsRemaining (adj : Adj) (queue visited : List Nat) : Nat :=
  (((adjNodesList adj ++ queue).filter (fun x => ¬ x ∈ visited)).toFinset).card

theorem bfsRemaining_skip (adj : Adj) (cur : Nat) (rest visited : List Nat)
    (h : cur ∈ visited) :
    bfsRemaining adj rest visited = bfsRemaining adj (cur :: rest) visited := by
  unfold bfsRemaining
  congr 1
  apply Finset.ext
  intro x
  simp only [List.toFinset_filter, List.mem_toFinset, Finset.mem_filter, List.mem_append,
    List.mem_cons, decide_not, Bool.not_eq_eq_eq_not, Bool.not_true, decide_eq_false_iff_not]
  constructor
  · rintro ⟨hx, hnv⟩
    exact ⟨hx.elim (fun h1 => Or.inl h1) (fun h2 => Or.inr (Or.inr h2)), hnv⟩
  · rintro ⟨hx, hnv⟩
    refine ⟨?_, hnv⟩
    rcases hx with h1 | h2 | h3
    · exact Or.inl h1
    · exact absurd (h2 ▸ h) hnv
    · exact Or.inr h3

theorem bfsRemaining_visit (adj : Adj) (cur : Nat) (rest visited : List Nat)
    (h : ¬ cur ∈ visited) :
    bfsRemaining adj (rest ++ (adjGet adj cur).filter (fun c => ¬ c ∈ (visited ++ [cur])))
      (visited ++ [cur]) < bfsRemaining adj (cur :: rest) visited := by
  unfold bfsRemaining
  apply Finset.card_lt_card
  rw [Finset.ssubset_iff_of_subset]
  · refine ⟨cur, ?_, ?_⟩
    · simp
      exact Or.inr h
    · simp
  · intro x hx
    simp only [List.toFinset_filter, List.mem_toFinset, Finset.mem_filter, List.mem_append,
      List.mem_cons, decide_not, Bool.not_eq_eq_eq_not, Bool.not_true,
      decide_eq_false_iff_not, List.mem_filter, List.mem_singleton] at hx ⊢
    obtain ⟨hx1, hx2⟩ := hx
    push_neg at hx2
    refine ⟨?_, hx2.1⟩
    rcases hx1 with h1 | h2 | h3
    · exact Or.inl h1
    · exact Or.inr (Or.inr h2)
    · exact Or.inl (adjGet_subset_nodes adj cur x h3.1)

/-- The shared breadth-first marking loop of `skip_all_descendants` and
`unified_get_related_rules` (their Python bodies are identical): pop a node,
ignore it if already visited, otherwise mark it and enqueue its not-yet-visited
neighbours. -/
def bfsVisit (adj : Adj) (queue visited : List Nat) : List Nat :=
  match queue with
  | [] => visited
  | cur :: rest =>
    if cur ∈ visited then
      bfsVisit adj rest visited
    else
      bfsVisit adj (rest ++ (adjGet adj cur).filter (fun c => ¬ c ∈ (visited ++ [cur])))
        (visited ++ [cur])
termination_by (bfsRemaining adj queue visited, queue.length)
decreasing_by
  · apply Prod.Lex.right'
    · exact Nat.le_of_eq (bfsRemaining_skip adj cur rest visited (by assumption))
    · simp
  · apply Prod.Lex.left
    exact bfsRemaining_visit adj cur rest visited (by assumption)

/-- `skip_all_descendants(start_id, adjacency, skipped)`: marks all descendants
of `startId` (breadth-first, not descending through already-skipped nodes). -/
def skip_all_descendants (adj : Adj) (startId : Nat) (skipped : List Nat) : List Nat :=
  bfsVisit adj [startId] skipped

/-- `unified_get_related_rules(conn, start_rule_id)`: all rules reachable from
the given rule over the adjacency graph. -/
def unified_get_related_rules (adj : Adj) (startRuleId : Nat) : List Nat :=
  bfsVisit adj [startRuleId] []

/-- The first returned cell `rows[0][0]` used by the runner, with the Python
truthiness guard `if rows and rows[0] else 1`. -/
def firstResult (rows : List (List SqlVal)) : SqlVal :=
  match rows with
  | [] => SqlVal.intVal 1
  | r :: _ =>
    match r with
    | [] => SqlVal.intVal 1
    | v :: _ => v

/-- Python comparison `result == 1` on a fetched SQL value. -/
def sqlValIsOne : SqlVal → Bool
  | SqlVal.intVal i => i == 1
  | _ => false

/-- Transaction statements issued by the runner, in order. -/
inductive TxOp where
  | beginTx
  | rollback
  | commit
deriving DecidableEq

/-- The observable result of `run_single_rule_transaction`: the returned triple
together with the transaction statements issued. -/
structure RunResult where
  success : Bool
  message : String
  rowCount : Nat
  txOps : List TxOp
deriving DecidableEq

/-- Display of an optional decision-table id inside the stub message. -/
def optNatText : Option Nat → String
  | none => "None"
  | some n => toString n

/-- `run_single_rule_transaction(conn, rule_info, is_dry_run)`.  The database's
reaction to executing the rule's SQL is the explicit `dbResponse` input.
DECISION_TABLE rules return success without opening a transaction (stub); for
standard rules the fetched result decides success, a dry run or a failure rolls
back, a success that is not a dry run commits, and an exception rolls back and
returns the exception text. -/
def run_single_rule_transaction (ruleInfo : BrmRule) (dbResponse : SqlOutcome)
    (isDryRun : Bool) : RunResult :=
  if ruleInfo.operationType = "DECISION_TABLE" then
    { success := true
      message := "DecisionTable " ++ optNatText ruleInfo.decisionTableId ++
        " executed successfully."
      rowCount := 1
      txOps := [] }
  else
    match dbResponse with
    | SqlOutcome.raised msg =>
      { success := false, message := msg, rowCount := 0, txOps := [TxOp.beginTx, TxOp.rollback] }
    | SqlOutcome.resultRows rows =>
      let result := firstResult rows
      let success := sqlValIsOne result
      { success := success
        message := "SQL executed successfully; returned a result."
        rowCount := rows.length
        txOps := [TxOp.beginTx,
          if isDryRun || !success then TxOp.rollback else TxOp.commit] }

/-- `rule_map` of `get_all_rules_map`, keyed by RULE_ID (later rows overwrite
earlier ones in the Python dict, hence the reversed search). -/
def getAllRulesMap (rules : List BrmRule) : Nat → Option BrmRule :=
  fun rid => rules.reverse.find? (fun r => r.ruleId == rid)

/-- The mutable state of the unified BFS execution loop. -/
structure BfsState where
  queue : List Nat
  executed : List Nat
  skipped : List Nat
deriving DecidableEq

/-- The descendant-skip cascade of the failure branch: one
`skip_all_descendants` call per child of the failing rule. -/
def cascadeChildren (adj : Adj) (children : List Nat) (skipped : List Nat) : List Nat :=
  children.foldl (fun sk c => skip_all_descendants adj c sk) skipped

/-- One iteration of the `while queue` loop of `execute_rules_unified_bfs`:
pop a rule id; skip it if already skipped; mark it skipped if absent from the
rule map; otherwise run it — on success append it to `executed` and enqueue its
not-skipped neighbours, on failure run the descendant-skip cascade (the same
cascade in the critical and the non-critical branch, as in the source) and mark
the rule skipped. -/
def engineStep (adj : Adj) (ruleMap : Nat → Option BrmRule) (db : Nat → SqlOutcome)
    (dryRun : Bool) (st : BfsState) : BfsState :=
  match st.queue with
  | [] => st
  | rid :: rest =>
    if rid ∈ st.skipped then { st with queue := rest }
    else
      match ruleMap rid with
      | none => { queue := rest, executed := st.executed, skipped := addIfAbsent st.skipped rid }
      | some info =>
        let res := run_single_rule_transaction info (db rid) dryRun
        if res.success then
          { queue := rest ++ (adjGet adj rid).filter (fun c => ¬ c ∈ st.skipped)
            executed := st.executed ++ [rid]
            skipped := st.skipped }
        else
          let isCritical := info.criticalRule == 1 || info.isGlobal == 1
          let sk2 :=
            if isCritical then cascadeChildren adj (adjGet adj rid) st.skipped
            else cascadeChildren adj (adjGet adj rid) st.skipped
          { queue := rest, executed := st.executed, skipped := addIfAbsent sk2 rid }

/-- The `while queue` loop, with explicit fuel: the source loop has no
execute-once guard and genuinely fails to terminate on some inputs, so the
embedding runs at most `fuel` iterations and stops early when the queue is
empty. -/
def engineRun (adj : Adj) (ruleMap : Nat → Option BrmRule) (db : Nat → SqlOutcome)
    (dryRun : Bool) (fuel : Nat) (st : BfsState) : BfsState :=
  match fuel with
  | 0 => st
  | f + 1 =>
    match st.queue with
    | [] => st
    | _ :: _ => engineRun adj ruleMap db dryRun f (engineStep adj ruleMap db dryRun st)

/-- `execute_rules_unified_bfs(conn, dry_run)`.  The four relationship tables,
the BRM_RULES contents and the database's per-rule SQL responses are explicit
inputs; `validationsPass` is the verdict of `run_data_validations` (a failing
validation raises before any rule executes); execution-log inserts are assumed
to succeed.  Returns the executed list and the skipped set. -/
def execute_rules_unified_bfs (rules : List BrmRule) (gcrRows : List (Nat × Nat))
    (conflictRows : List (Nat × Nat × Nat)) (compositeRows : List (Nat × Option String))
    (db : Nat → SqlOutcome) (dryRun : Bool) (validationsPass : Bool) (fuel : Nat) :
    Except String (List Nat × List Nat) :=
  let ruleRows := rules.map (fun r => (r.ruleId, r.parentRuleId))
  if validationsPass then
    let adj := loadAdjacency ruleRows gcrRows conflictRows compositeRows
    let st := engineRun adj (getAllRulesMap rules) db dryRun fuel
      { queue := loadRoots ruleRows, executed := [], skipped := [] }
    Except.ok (st.executed, st.skipped)
  else
    Except.error "Data validations failed. Please review the validation logs."

/-- Python set `add` on a list of group names. -/
def addGroup (l : List String) (g : String) : List String :=
  if g ∈ l then l else l ++ [g]

/-- `find_impacted_business_groups(conn, rule_id)`: the distinct truthy
OWNER_GROUP values over all rules reachable from the given rule (a NULL or
empty owner group fails the `if row and row[0]` guard). -/
def find_impacted_business_groups (adj : Adj) (rules : List BrmRule) (ruleId : Nat) :
    List String :=
  (unified_get_related_rules adj ruleId).foldl
    (fun gs rid =>
      match rules.find? (fun r => r.ruleId == rid) with
      | none => gs
      | some r =>
        match r.ownerGroup with
        | none => gs
        | some g => if g = "" then gs else addGroup gs g)
    []

/-- The pipeline sequence of `create_multistep_approvals`: `BG1`, then `BG2`
and `BG3` when impacted, then every other impacted group not yet present, then
`FINAL`. -/
def buildPipeline (impactedGroups : List String) : List String :=
  let p1 := ["BG1"]
  let p2 := ["BG2", "BG3"].foldl (fun p grp => if grp ∈ impactedGroups then p ++ [grp] else p) p1
  let p3 := impactedGroups.foldl (fun p grp => if grp ∈ p then p else p ++ [grp]) p2
  p3 ++ ["FINAL"]

/-- A row of BRM_RULE_APPROVALS. -/
structure ApprovalRow where
  ruleId : Nat
  groupName : String
  username : String
  approvedFlag : Int
  approvalStage : Nat
  approvedTimestamp : Option Nat
deriving DecidableEq

/-- The insert loop of `create_multistep_approvals`: one pending row per
configured approver of each pipeline group (or one `{group}_default` row when
the group has no approvers), with stage numbers counting up from `stage`. -/
def stageRowsFrom (ruleId : Nat) (approvers : String → List String) :
    Nat → List String → List ApprovalRow
  | _, [] => []
  | stage, grp :: rest =>
    (match approvers grp with
     | [] => [{ ruleId := ruleId, groupName := grp, username := grp ++ "_default",
                approvedFlag := 0, approvalStage := stage, approvedTimestamp := none }]
     | users => users.map (fun u =>
        { ruleId := ruleId, groupName := grp, username := u,
          approvedFlag := 0, approvalStage := stage, approvedTimestamp := none }))
    ++ stageRowsFrom ruleId approvers (stage + 1) rest

/-- `create_multistep_approvals(conn, rule_id, initiated_by)`: delete every
BRM_RULE_APPROVALS row of the rule, then insert the pipeline's pending rows.
`approvalsTable` is the table's prior contents; `approvers` is the
BUSINESS_GROUP_APPROVERS lookup; `initiatedBy` is accepted but (as in the
source) not written into any row. -/
def create_multistep_approvals (approvalsTable : List ApprovalRow) (adj : Adj)
    (rules : List BrmRule) (approvers : String → List String) (ruleId : Nat)
    (initiatedBy : String) : List ApprovalRow :=
  let pipeline := buildPipeline (find_impacted_business_groups adj rules ruleId)
  approvalsTable.filter (fun row => ¬ row.ruleId == ruleId)
    ++ stageRowsFrom ruleId approvers 1 pipeline

/-- `insert_audit_log(conn, ...)`: the database insert's outcome is the
explicit input; on failure the error is logged and then re-raised. -/
def insert_audit_log (dbInsert : Except String Unit) : Except String Unit :=
  match dbInsert with
  | Except.ok _ => Except.ok ()
  | Except.error ex => Except.error ex

/-- A row of RULE_LOCKS. -/
structure LockRow where
  ruleId : Nat
  lockedBy : String
  lockTimestamp : Nat
deriving DecidableEq

/-- `lock_rule(conn, rule_id, locked_by, force)`: first lazily delete every
lock older than 30 minutes, then, if a lock row for the rule remains and its
holder differs and `force` is false, raise a locking-conflict error; otherwise
replace any remaining row for the rule with a fresh lock stamped `now`. -/
def lock_rule (locks : List LockRow) (now : Nat) (ruleId : Nat) (lockedBy : String)
    (force : Bool) : Except String (List LockRow) :=
  match ((locks.filter (fun l => ¬ now - l.lockTimestamp > 30)).filter
      (fun l => l.ruleId == ruleId)).head? with
  | some l =>
    if l.lockedBy ≠ lockedBy ∧ force = false then
      Except.error ("Rule " ++ toString ruleId ++ " is already locked by " ++ l.lockedBy ++ ".")
    else
      Except.ok (((locks.filter (fun l => ¬ now - l.lockTimestamp > 30)).filter
        (fun l2 => ¬ l2.ruleId == ruleId)) ++ [⟨ruleId, lockedBy, now⟩])
  | none =>
    Except.ok ((locks.filter (fun l => ¬ now - l.lockTimestamp > 30)) ++
      [⟨ruleId, lockedBy, now⟩])

/-- `unlock_rule(conn, rule_id, locked_by, force)`: raises when the rule is
locked by someone else and `force` is false, otherwise deletes the rule's lock
rows. -/
def unlock_rule (locks : List LockRow) (ruleId : Nat) (lockedBy : String) (force : Bool) :
    Except String (List LockRow) :=
  match (locks.filter (fun l => l.ruleId == ruleId)).head? with
  | some l =>
    if l.lockedBy ≠ lockedBy ∧ force = false then
      Except.error ("Cannot unlock rule " ++ toString ruleId ++ "; it is locked by " ++
        l.lockedBy ++ ".")
    else
      Except.ok (locks.filter (fun l2 => ¬ l2.ruleId == ruleId))
  | none => Except.ok (locks.filter (fun l2 => ¬ l2.ruleId == ruleId))

/-- `detect_operation_type(rule_sql, decision_table_id)` from core.py (a truthy
decision-table id means non-NULL and non-zero). -/
def detect_operation_type (ruleSql : String) (decisionTableId : Option Nat) : String :=
  if ruleSql.trim = "" ∧ pidTruthy decisionTableId = true then "DECISION_TABLE"
  else
    let txt := ruleSql.trim.toUpper
    if txt.startsWith "INSERT" then "INSERT"
    else if txt.startsWith "UPDATE" then "UPDATE"
    else if txt.startsWith "DELETE" then "DELETE"
    else if txt.startsWith "SELECT" then "SELECT"
    else "OTHER"

/-- The database interactions of `add_rule`, as observable outcomes: whether
the duplicate-name SELECT finds a row, the outcome of the BRM_RULES insert
(the new RULE_ID or an error), and the outcome of the audit-log insert. -/
structure AddRuleDb where
  duplicateNameExists : Bool
  insertOutcome : Except String Nat
  auditInsertOutcome : Except String Unit

/-- Steps of a mutating CRUD operation that reached the database, in order. -/
inductive CrudEvent where
  | ruleInserted
  | depInserted
  | auditWritten
  | committed
  | approvalsCreated
deriving DecidableEq

/-- `add_rule(conn, rule_data, created_by, user_group)`, reduced to its control
flow over database outcomes: reject duplicate names, detect the operation
type, insert the rule, insert table dependencies when applicable, write the
audit log, commit, then create the approvals.  An exception anywhere (notably
one re-raised by `insert_audit_log`) aborts the remaining steps, so the commit
never runs after a failed audit insert. -/
def add_rule (dbOut : AddRuleDb) (ruleSql : String) (decisionTableId : Option Nat) :
    Except String (Nat × List CrudEvent) :=
  if dbOut.duplicateNameExists then
    Except.error "A rule with that name already exists in the specified group."
  else
    let newSql := ruleSql.trim
    let opType := detect_operation_type newSql decisionTableId
    match dbOut.insertOutcome with
    | Except.error ex => Except.error ex
    | Except.ok newId =>
      let ev1 : List CrudEvent :=
        if ¬ (opType = "DECISION_TABLE" ∨ opType = "OTHER") ∧ ¬ newSql = "" then
          [CrudEvent.ruleInserted, CrudEvent.depInserted]
        else [CrudEvent.ruleInserted]
      match insert_audit_log dbOut.auditInsertOutcome with
      | Except.error ex => Except.error ex
      | Except.ok _ =>
        Except.ok (newId, ev1 ++ [CrudEvent.auditWritten, CrudEvent.committed,
          CrudEvent.approvalsCreated])

/-- The database state seen by `delete_rule`: the BRM_RULES table and the
RULE_LOCKS table. -/
structure CrudState where
  rules : List BrmRule
  locks : List LockRow
deriving DecidableEq

/-- `SELECT * FROM BRM_RULES WHERE RULE_ID=?` followed by `fetchone`. -/
def findRuleRow (rules : List BrmRule) (rid : Nat) : Option BrmRule :=
  rules.find? (fun r => r.ruleId == rid)

/-- `delete_rule(conn, rule_id, action_by, user_group, force)`: lock the rule,
look it up, enforce the global/Admin check, the approval check and the
inactive check (the latter two bypassable by `force`), then refuse
unconditionally when any rule has this rule as its parent; otherwise delete
the row, write the audit log (whose failure aborts before the commit), commit
and unlock.  Returns the raised error or unit, together with the resulting
database state. -/
def delete_rule (st : CrudState) (now : Nat) (ruleId : Nat) (actionBy userGroup : String)
    (force : Bool) (auditInsertOutcome : Except String Unit) :
    Except String Unit × CrudState :=
  match lock_rule st.locks now ruleId actionBy force with
  | Except.error e => (Except.error e, st)
  | Except.ok locks1 =>
    match findRuleRow st.rules ruleId with
    | none => (Except.error "Rule not found for deletion.", ⟨st.rules, locks1⟩)
    | some old =>
      if old.isGlobal == 1 ∧ ¬ userGroup = "Admin" then
        (Except.error "Only Admin can delete a global rule.", ⟨st.rules, locks1⟩)
      else if ¬ old.approvalStatus = "APPROVED" ∧ force = false then
        (Except.error "Rule is not fully approved; cannot delete.", ⟨st.rules, locks1⟩)
      else if ¬ old.status = "INACTIVE" ∧ force = false then
        (Except.error "Rule must be deactivated before deletion.", ⟨st.rules, locks1⟩)
      else if st.rules.any (fun r => r.parentRuleId == some ruleId) then
        (Except.error "Child rules exist; cannot delete this rule.", ⟨st.rules, locks1⟩)
      else
        match insert_audit_log auditInsertOutcome with
        | Except.error e => (Except.error e, ⟨st.rules, locks1⟩)
        | Except.ok _ =>
          match unlock_rule locks1 ruleId actionBy force with
          | Except.error e =>
            (Except.error e, ⟨st.rules.filter (fun r => ¬ r.ruleId == ruleId), locks1⟩)
          | Except.ok locks2 =>
            (Except.ok (), ⟨st.rules.filter (fun r => ¬ r.ruleId == ruleId), locks2⟩)

/-- Reachability along at least one adjacency edge ("every node reachable from
`src` via the adjacency graph"). -/
inductive ReachE (adj : Adj) (src : Nat) : Nat → Prop where
  | base (z : Nat) : z ∈ adjGet adj src → ReachE adj src z
  | step (y z : Nat) : ReachE adj src y → z ∈ adjGet adj y → ReachE adj src z

/-- Reachability (including the empty path) along paths all of whose nodes lie
outside `avoid`. -/
inductive ReachAvoid (adj : Adj) (avoid : List Nat) (src : Nat) : Nat → Prop where
  | refl : ¬ src ∈ avoid → ReachAvoid adj avoid src src
  | step (y z : Nat) : ReachAvoid adj avoid src y → z ∈ adjGet adj y → ¬ z ∈ avoid →
      ReachAvoid adj avoid src z

theorem reachAvoid_target_not_avoid {adj : Adj} {avoid : List Nat} {src y : Nat}
    (h : ReachAvoid adj avoid src y) : ¬ y ∈ avoid := by
  cases h with
  | refl hx => exact hx
  | step b _ hab hz hzA => exact hzA

theorem reachAvoid_head_cases {adj : Adj} {avoid : List Nat} {src y : Nat}
    (h : ReachAvoid adj avoid src y) :
    y = src ∨ ∃ c, c ∈ adjGet adj src ∧ ¬ c ∈ avoid ∧ ReachAvoid adj avoid c y := by
  induction h with
  | refl _ => exact Or.inl rfl
  | step b z hab hz hzA ih =>
    rcases ih with heq | ⟨c, hc1, hc2, hc3⟩
    · exact Or.inr ⟨z, heq ▸ hz, hzA, ReachAvoid.refl hzA⟩
    · exact Or.inr ⟨c, hc1, hc2, ReachAvoid.step b z hc3 hz hzA⟩

theorem mem_addIfAbsent_self (l : List Nat) (x : Nat) : x ∈ addIfAbsent l x := by
  unfold addIfAbsent
  by_cases h : x ∈ l <;> simp [h]

theorem mem_addIfAbsent_of_mem (l : List Nat) (x y : Nat) (h : y ∈ l) :
    y ∈ addIfAbsent l x := by
  unfold addIfAbsent
  by_cases hx : x ∈ l <;> simp [hx, h]

theorem bfsVisit_mem_visited (adj : Adj) (queue visited : List Nat) :
    ∀ x ∈ visited, x ∈ bfsVisit adj queue visited := by
  induction queue, visited using bfsVisit.induct adj with
  | case1 visited => intro x hx; rw [bfsVisit]; exact hx
  | case2 visited cur rest hcur ih =>
    intro x hx; rw [bfsVisit]; simp only [hcur, if_true]; exact ih x hx
  | case3 visited cur rest hcur ih =>
    intro x hx; rw [bfsVisit]; simp only [hcur, if_false]
    exact ih x (List.mem_append_left _ hx)

theorem bfsVisit_mem_queue (adj : Adj) (queue visited : List Nat) :
    ∀ x ∈ queue, x ∈ bfsVisit adj queue visited := by
  induction queue, visited using bfsVisit.induct adj with
  | case1 visited => intro x hx; simp at hx
  | case2 visited cur rest hcur ih =>
    intro x hx; rw [bfsVisit]; simp only [hcur, if_true]
    rcases List.mem_cons.mp hx with heq | hrest
    · exact bfsVisit_mem_visited adj rest visited x (heq ▸ hcur)
    · exact ih x hrest
  | case3 visited cur rest hcur ih =>
    intro x hx; rw [bfsVisit]; simp only [hcur, if_false]
    rcases List.mem_cons.mp hx with heq | hrest
    · exact bfsVisit_mem_visited adj _ _ x
        (heq ▸ List.mem_append_right _ (List.mem_singleton.mpr rfl))
    · exact ih x (List.mem_append_left _ hrest)

theorem bfsVisit_closed (adj : Adj) (queue visited : List Nat) :
    ∀ x, x ∈ bfsVisit adj queue visited → ¬ x ∈ visited →
      ∀ c ∈ adjGet adj x, c ∈ bfsVisit adj queue visited := by
  induction queue, visited using bfsVisit.induct adj with
  | case1 visited =>
    intro x hx hnx
    rw [bfsVisit] at hx
    exact absurd hx hnx
  | case2 visited cur rest hcur ih =>
    intro x hx hnx c hc
    rw [bfsVisit] at hx ⊢
    simp only [hcur, if_true] at hx ⊢
    exact ih x hx hnx c hc
  | case3 visited cur rest hcur ih =>
    intro x hx hnx c hc
    rw [bfsVisit] at hx ⊢
    simp only [hcur, if_false] at hx ⊢
    by_cases hxc : x = cur
    · subst hxc
      by_cases hcv : c ∈ visited ++ [x]
      · exact bfsVisit_mem_visited adj _ _ c hcv
      · refine bfsVisit_mem_queue adj _ _ c ?_
        refine List.mem_append_right _ ?_
        rw [List.mem_filter]
        exact ⟨hc, by simpa using hcv⟩
    · have hnx2 : ¬ x ∈ visited ++ [cur] := by
        simp only [List.mem_append, List.mem_singleton]
        rintro (h1 | h2)
        · exact hnx h1
        · exact hxc h2
      exact ih x hx hnx2 c hc

theorem reachAvoid_in_closed (adj : Adj) (avoid T : List Nat)
    (hclosed : ∀ x, x ∈ T → ¬ x ∈ avoid → ∀ c ∈ adjGet adj x, c ∈ T) :
    ∀ x y, x ∈ T → ReachAvoid adj avoid x y → y ∈ T := by
  intro x y hx hreach
  induction hreach with
  | refl _ => exact hx
  | step b z hab hz hzA ih =>
    exact hclosed b ih (reachAvoid_target_not_avoid hab) z hz

theorem cascadeChildren_cons (adj : Adj) (c : Nat) (cs : List Nat) (sk : List Nat) :
    cascadeChildren adj (c :: cs) sk = cascadeChildren adj cs (skip_all_descendants adj c sk) := by
  rfl

theorem cascadeChildren_sup (adj : Adj) (children : List Nat) :
    ∀ sk, ∀ a ∈ sk, a ∈ cascadeChildren adj children sk := by
  induction children with
  | nil => intro sk a ha; exact ha
  | cons c cs ih =>
    intro sk a ha
    rw [cascadeChildren_cons]
    exact ih _ a (bfsVisit_mem_visited adj [c] sk a ha)

theorem cascadeChildren_mem_children (adj : Adj) (children : List Nat) :
    ∀ sk, ∀ c ∈ children, c ∈ cascadeChildren adj children sk := by
  induction children with
  | nil => intro sk c hc; simp at hc
  | cons c cs ih =>
    intro sk x hx
    rw [cascadeChildren_cons]
    rcases List.mem_cons.mp hx with heq | hrest
    · subst heq
      exact cascadeChildren_sup adj cs _ x
        (bfsVisit_mem_queue adj [x] sk x (List.mem_singleton.mpr rfl))
    · exact ih _ x hrest

theorem cascadeChildren_closed (adj : Adj) (children : List Nat) :
    ∀ sk, ∀ x, x ∈ cascadeChildren adj children sk → ¬ x ∈ sk →
      ∀ c ∈ adjGet adj x, c ∈ cascadeChildren adj children sk := by
  induction children with
  | nil => intro sk x hx hnx; exact absurd hx hnx
  | cons c cs ih =>
    intro sk x hx hnx c2 hc2
    rw [cascadeChildren_cons] at hx ⊢
    by_cases hx1 : x ∈ skip_all_descendants adj c sk
    · have := bfsVisit_closed adj [c] sk x hx1 hnx c2 hc2
      exact cascadeChildren_sup adj cs _ c2 this
    · exact ih _ x hx hx1 c2 hc2

/-- Every node reachable from a failing rule along a path avoiding the already
skipped set ends up in the skipped set produced by the failure branch. -/
theorem cascade_covers (adj : Adj) (sk : List Nat) (rid : Nat) :
    ∀ y, ReachAvoid adj sk rid y →
      y ∈ addIfAbsent (cascadeChildren adj (adjGet adj rid) sk) rid := by
  intro y hy
  rcases reachAvoid_head_cases hy with heq | ⟨c, hc1, hc2, hc3⟩
  · rw [heq]; exact mem_addIfAbsent_self _ rid
  · have hcT : c ∈ cascadeChildren adj (adjGet adj rid) sk :=
      cascadeChildren_mem_children adj _ sk c hc1
    have hyT : y ∈ cascadeChildren adj (adjGet adj rid) sk :=
      reachAvoid_in_closed adj sk _ (cascadeChildren_closed adj _ sk) c y hcT hc3
    exact mem_addIfAbsent_of_mem _ rid y hyT

theorem engineStep_skipped_mono (adj : Adj) (rm : Nat → Option BrmRule)
    (db : Nat → SqlOutcome) (dry : Bool) (st : BfsState) :
    ∀ x ∈ st.skipped, x ∈ (engineStep adj rm db dry st).skipped := by
  intro x hx
  obtain ⟨q, ex, sk⟩ := st
  cases q with
  | nil => exact hx
  | cons rid rest =>
    simp only [engineStep]
    split
    · exact hx
    · split
      · exact mem_addIfAbsent_of_mem _ _ _ hx
      · split
        · exact hx
        · simp only [ite_self]
          exact mem_addIfAbsent_of_mem _ _ _ (cascadeChildren_sup adj _ _ x hx)

theorem engineStep_executed_mono (adj : Adj) (rm : Nat → Option BrmRule)
    (db : Nat → SqlOutcome) (dry : Bool) (st : BfsState) :
    ∀ x ∈ st.executed, x ∈ (engineStep adj rm db dry st).executed := by
  intro x hx
  obtain ⟨q, ex, sk⟩ := st
  cases q with
  | nil => exact hx
  | cons rid rest =>
    simp only [engineStep]
    split
    · exact hx
    · split
      · exact hx
      · split
        · exact List.mem_append_left _ hx
        · exact hx

theorem engineStep_executed_new (adj : Adj) (rm : Nat → Option BrmRule)
    (db : Nat → SqlOutcome) (dry : Bool) (st : BfsState) (y : Nat)
    (hy : y ∈ st.skipped) :
    y ∈ (engineStep adj rm db dry st).executed → y ∈ st.executed := by
  intro hmem
  obtain ⟨q, ex, sk⟩ := st
  cases q with
  | nil => exact hmem
  | cons rid rest =>
    simp only [engineStep] at hmem
    split at hmem
    · exact hmem
    · rename_i hns
      split at hmem
      · exact hmem
      · split at hmem
        · simp only [BfsState.executed] at hmem ⊢
          rcases List.mem_append.mp hmem with h1 | h2
          · exact h1
          · exact absurd (List.mem_singleton.mp h2 ▸ hy) hns
        · exact hmem

theorem engineRun_skipped_mono (adj : Adj) (rm : Nat → Option BrmRule)
    (db : Nat → SqlOutcome) (dry : Bool) (fuel : Nat) :
    ∀ st : BfsState, ∀ x ∈ st.skipped, x ∈ (engineRun adj rm db dry fuel st).skipped := by
  induction fuel with
  | zero => intro st x hx; exact hx
  | succ f ih =>
    intro st x hx
    rw [engineRun]
    cases hq : st.queue with
    | nil => exact hx
    | cons a b => exact ih _ x (engineStep_skipped_mono adj rm db dry st x hx)

theorem engineRun_executed_mono (adj : Adj) (rm : Nat → Option BrmRule)
    (db : Nat → SqlOutcome) (dry : Bool) (fuel : Nat) :
    ∀ st : BfsState, ∀ x ∈ st.executed, x ∈ (engineRun adj rm db dry fuel st).executed := by
  induction fuel with
  | zero => intro st x hx; exact hx
  | succ f ih =>
    intro st x hx
    rw [engineRun]
    cases hq : st.queue with
    | nil => exact hx
    | cons a b => exact ih _ x (engineStep_executed_mono adj rm db dry st x hx)

theorem engineStep_failure (adj : Adj) (rm : Nat → Option BrmRule) (db : Nat → SqlOutcome)
    (dry : Bool) (rid : Nat) (rest ex sk : List Nat) (info : BrmRule)
    (hns : ¬ rid ∈ sk) (hmap : rm rid = some info)
    (hfail : (run_single_rule_transaction info (db rid) dry).success = false) :
    engineStep adj rm db dry ⟨rid :: rest, ex, sk⟩ =
      ⟨rest, ex, addIfAbsent (cascadeChildren adj (adjGet adj rid) sk) rid⟩ := by
  simp only [engineStep, hns, if_false, hmap, hfail, Bool.false_eq_true, ite_self]

/-- Erase the two failure-cascade flags of a rule record (used to state that
the engine's behaviour does not depend on them). -/
def stripFlags (r : BrmRule) : BrmRule :=
  { r with criticalRule := 0, isGlobal := 0 }

theorem runner_ignores_flags (r1 r2 : BrmRule) (h : stripFlags r1 = stripFlags r2)
    (o : SqlOutcome) (dry : Bool) :
    run_single_rule_transaction r1 o dry = run_single_rule_transaction r2 o dry := by
  have hop : r1.operationType = r2.operationType := by
    have := congrArg BrmRule.operationType h
    simpa [stripFlags] using this
  have hdt : r1.decisionTableId = r2.decisionTableId := by
    have := congrArg BrmRule.decisionTableId h
    simpa [stripFlags] using this
  unfold run_single_rule_transaction
  rw [hop, hdt]

theorem engineStep_flags_indep (adj : Adj) (rm1 rm2 : Nat → Option BrmRule)
    (db : Nat → SqlOutcome) (dry : Bool) (st : BfsState)
    (h : ∀ x, Option.map stripFlags (rm1 x) = Option.map stripFlags (rm2 x)) :
    engineStep adj rm1 db dry st = engineStep adj rm2 db dry st := by
  obtain ⟨q, ex, sk⟩ := st
  cases q with
  | nil => rfl
  | cons rid rest =>
    by_cases hsk : rid ∈ sk
    · simp only [engineStep, hsk, if_true]
    · have hx := h rid
      cases h1 : rm1 rid with
      | none =>
        cases h2 : rm2 rid with
        | none => simp only [engineStep, hsk, if_false, h1, h2]
        | some r2 => rw [h1, h2] at hx; exact absurd hx (by simp)
      | some r1 =>
        cases h2 : rm2 rid with
        | none => rw [h1, h2] at hx; exact absurd hx (by simp)
        | some r2 =>
          rw [h1, h2] at hx
          have hx2 : stripFlags r1 = stripFlags r2 := by simpa using hx
          have hrun := runner_ignores_flags r1 r2 hx2 (db rid) dry
          simp only [engineStep, hsk, if_false, h1, h2, hrun, ite_self]

theorem engineRun_executed_new (adj : Adj) (rm : Nat → Option BrmRule)
    (db : Nat → SqlOutcome) (dry : Bool) (fuel : Nat) :
    ∀ st : BfsState, ∀ y ∈ st.skipped,
      y ∈ (engineRun adj rm db dry fuel st).executed → y ∈ st.executed := by
  induction fuel with
  | zero => intro st y _ h; exact h
  | succ f ih =>
    intro st y hy h
    rw [engineRun] at h
    cases hq : st.queue with
    | nil => rw [hq] at h; exact h
    | cons a b =>
      rw [hq] at h
      exact engineStep_executed_new adj rm db dry st y hy
        (ih _ y (engineStep_skipped_mono adj rm db dry st y hy) h)

/-- An occurrence of the composite-reference pattern inside `s`: a
case-insensitive `Rule`, then optional whitespace, then a maximal nonempty
digit run whose numeric value is `n`. -/
def RuleRefAt (s : List Char) (n : Nat) : Prop :=
  ∃ pre w ws ds post, s = pre ++ w ++ ws ++ ds ++ post ∧ isRuleWord w = true ∧
    ws.all isWsChar = true ∧ ds ≠ [] ∧ ds.all Char.isDigit = true ∧
    (∀ c, post.head? = some c → Char.isDigit c = false) ∧ digitsToNat ds = n

theorem isRuleWord_shape {w : List Char} (h : isRuleWord w = true) :
    ∃ a b c d, w = [a, b, c, d] ∧ (a = 'r' ∨ a = 'R') ∧ (b = 'u' ∨ b = 'U') ∧
      (c = 'l' ∨ c = 'L') ∧ (d = 'e' ∨ d = 'E') := by
  match w with
  | [] => simp [isRuleWord] at h
  | [a] => simp [isRuleWord] at h
  | [a, b] => simp [isRuleWord] at h
  | [a, b, c] => simp [isRuleWord] at h
  | [a, b, c, d] =>
    simp only [isRuleWord, Bool.and_eq_true, Bool.or_eq_true, beq_iff_eq] at h
    exact ⟨a, b, c, d, rfl, h.1.1.1, h.1.1.2, h.1.2, h.2⟩
  | a :: b :: c :: d :: e :: t => simp [isRuleWord] at h

theorem ws_not_rule_start {c : Char} (h : isWsChar c = true) : c ≠ 'r' ∧ c ≠ 'R' := by
  simp only [isWsChar, Bool.or_eq_true, beq_iff_eq] at h
  rcases h with ((((h1 | h1) | h1) | h1) | h1) | h1 <;> subst h1 <;> exact ⟨by decide, by decide⟩

theorem digit_not_rule_start {c : Char} (h : c.isDigit = true) : c ≠ 'r' ∧ c ≠ 'R' := by
  constructor <;> rintro rfl <;> simp [Char.isDigit] at h

theorem digit_not_ws {c : Char} (h : c.isDigit = true) : isWsChar c = false := by
  cases hw : isWsChar c
  · rfl
  · simp only [isWsChar, Bool.or_eq_true, beq_iff_eq] at hw
    rcases hw with ((((h1 | h1) | h1) | h1) | h1) | h1 <;> subst h1 <;> simp [Char.isDigit] at h

theorem dropWhile_append_all {p : Char → Bool} {l : List Char} (h : l.all p = true)
    (t : List Char) : (l ++ t).dropWhile p = t.dropWhile p := by
  induction l with
  | nil => rfl
  | cons c cs ih =>
    simp only [List.all_cons, Bool.and_eq_true] at h
    simp only [List.cons_append, List.dropWhile_cons, h.1, if_true]
    exact ih h.2

theorem dropWhile_eq_self_of_head {p : Char → Bool} {l : List Char}
    (h : ∀ c, l.head? = some c → p c = false) : l.dropWhile p = l := by
  cases l with
  | nil => rfl
  | cons c cs =>
    have := h c rfl
    simp [List.dropWhile_cons, this]

theorem takeWhile_append_of_all {p : Char → Bool} {l : List Char} (h : l.all p = true)
    {t : List Char} (ht : ∀ c, t.head? = some c → p c = false) :
    (l ++ t).takeWhile p = l ∧ (l ++ t).dropWhile p = t := by
  induction l with
  | nil =>
    constructor
    · cases t with
      | nil => rfl
      | cons c cs => simp [List.takeWhile_cons, ht c rfl]
    · exact dropWhile_eq_self_of_head ht
  | cons c cs ih =>
    simp only [List.all_cons, Bool.and_eq_true] at h
    obtain ⟨ih1, ih2⟩ := ih h.2
    constructor
    · simp [List.takeWhile_cons, h.1, ih1]
    · simp [List.dropWhile_cons, h.1, ih2]

theorem head?_dropWhile_not {p : Char → Bool} (l : List Char) :
    ∀ c, (l.dropWhile p).head? = some c → p c = false := by
  induction l with
  | nil => intro c h; simp at h
  | cons a t ih =>
    intro c h
    by_cases hp : p a
    · rw [List.dropWhile_cons, if_pos hp] at h
      exact ih c h
    · rw [List.dropWhile_cons, if_neg hp] at h
      simp only [List.head?_cons, Option.some.injEq] at h
      rw [← h]
      simpa using hp

/-- A successful match attempt decomposes the text into the rule word, the
skipped whitespace, the digit group and the remainder. -/
theorem tryMatchAt_parts {s : List Char} {n : Nat} {rest : List Char}
    (h : tryMatchAt s = some (n, rest)) :
    ∃ w ws ds, s = w ++ ws ++ ds ++ rest ∧ isRuleWord w = true ∧
      ws.all isWsChar = true ∧ ds ≠ [] ∧ ds.all Char.isDigit = true ∧
      (∀ c, rest.head? = some c → Char.isDigit c = false) ∧ digitsToNat ds = n := by
  match s with
  | [] => simp [tryMatchAt] at h
  | [a] => simp [tryMatchAt] at h
  | [a, b] => simp [tryMatchAt] at h
  | [a, b, c] => simp [tryMatchAt] at h
  | a :: b :: c :: d :: r =>
    simp only [tryMatchAt] at h
    by_cases hw : isRuleWord [a, b, c, d]
    · simp only [hw, if_true] at h
      by_cases he : (List.takeWhile Char.isDigit (List.dropWhile isWsChar r)).isEmpty = true
      · rw [if_pos he] at h; exact absurd h (by simp)
      · rw [if_neg he] at h
        simp only [Option.some.injEq, Prod.mk.injEq] at h
        have h1 : List.takeWhile isWsChar r ++ List.dropWhile isWsChar r = r :=
          List.takeWhile_append_dropWhile isWsChar r
        have h2 : List.takeWhile Char.isDigit (List.dropWhile isWsChar r) ++
            List.dropWhile Char.isDigit (List.dropWhile isWsChar r) =
              List.dropWhile isWsChar r :=
          List.takeWhile_append_dropWhile Char.isDigit (List.dropWhile isWsChar r)
        refine ⟨[a, b, c, d], r.takeWhile isWsChar,
          (r.dropWhile isWsChar).takeWhile Char.isDigit, ?_, hw, ?_, ?_, ?_, ?_, ?_⟩
        · rw [← h.2, List.append_assoc, List.append_assoc, h2, h1]
          rfl
        · exact List.all_takeWhile
        · intro hempty
          rw [hempty] at he
          simp at he
        · exact List.all_takeWhile
        · intro c2 hc2
          rw [← h.2] at hc2
          exact head?_dropWhile_not _ c2 hc2
        · exact h.1
    · simp [hw] at h

/-- A decomposition into rule word, all-whitespace run, maximal digit run and
remainder forces the match attempt to succeed with exactly that digit group. -/
theorem tryMatchAt_of_parts {w ws ds post : List Char}
    (hw : isRuleWord w = true) (hws : ws.all isWsChar = true) (hne : ds ≠ [])
    (hds : ds.all Char.isDigit = true)
    (hpost : ∀ c, post.head? = some c → Char.isDigit c = false) :
    tryMatchAt (w ++ ws ++ ds ++ post) = some (digitsToNat ds, post) := by
  obtain ⟨a, b, c, d, hw4, _, _, _, _⟩ := isRuleWord_shape hw
  subst hw4
  have hdpost : ∀ c2, (ds ++ post).head? = some c2 → isWsChar c2 = false := by
    intro c2 hc2
    cases ds with
    | nil => exact absurd rfl hne
    | cons d0 dt =>
      simp only [List.cons_append, List.head?_cons, Option.some.injEq] at hc2
      simp only [List.all_cons, Bool.and_eq_true] at hds
      rw [← hc2]
      exact digit_not_ws hds.1
  have hdrop1 : ((ws ++ ds ++ post).dropWhile isWsChar) = ds ++ post := by
    rw [List.append_assoc]
    rw [dropWhile_append_all hws]
    exact dropWhile_eq_self_of_head hdpost
  have hspan := takeWhile_append_of_all hds hpost
  have hemp : ds.isEmpty = false := by
    cases ds with
    | nil => exact absurd rfl hne
    | cons d0 dt => rfl
  simp only [List.cons_append, List.nil_append]
  simp only [tryMatchAt, hw, if_true]
  rw [hdrop1, hspan.1, hspan.2, hemp]
  simp

/-- No new match of the pattern can begin strictly inside a consumed match:
the characters after the leading `r`/`R` of a match are `u l e` letters,
whitespace or digits, none of which can start the literal `Rule`. -/
theorem match_prefix_bound {w1 ws1 ds1 rest pre w2 tail2 : List Char}
    (hw1 : isRuleWord w1 = true) (hws1 : ws1.all isWsChar = true)
    (hds1 : ds1.all Char.isDigit = true) (hw2 : isRuleWord w2 = true)
    (hpre : pre ≠ [])
    (heq : (w1 ++ ws1 ++ ds1) ++ rest = pre ++ (w2 ++ tail2)) :
    (w1 ++ ws1 ++ ds1).length ≤ pre.length := by
  by_contra hlt
  push_neg at hlt
  obtain ⟨a, b, c, d, hw14, ha, hb, hc, hd⟩ := isRuleWord_shape hw1
  obtain ⟨a2, b2, c2, d2, hw24, ha2, hb2, hc2, hd2⟩ := isRuleWord_shape hw2
  subst hw14
  subst hw24
  have hdrop := congrArg (List.drop pre.length) heq
  rw [List.drop_append_of_le_length (Nat.le_of_lt hlt), List.drop_left] at hdrop
  have hlen : (([a, b, c, d] ++ ws1 ++ ds1).drop pre.length).length =
      ([a, b, c, d] ++ ws1 ++ ds1).length - pre.length := List.length_drop _ _
  have hne : ([a, b, c, d] ++ ws1 ++ ds1).drop pre.length ≠ [] := by
    intro h0
    rw [h0] at hlen
    simp only [List.length_nil] at hlen
    omega
  obtain ⟨x, xs, hxs⟩ := List.exists_cons_of_ne_nil hne
  rw [hxs] at hdrop
  have hx : x = a2 := by
    have := congrArg List.head? hdrop
    simpa using this
  have hp1 : 1 ≤ pre.length := by
    cases pre with
    | nil => exact absurd rfl hpre
    | cons p ps => simp
  have hctail : ([a, b, c, d] ++ ws1 ++ ds1) = a :: (b :: c :: d :: (ws1 ++ ds1)) := by
    simp [List.append_assoc]
  have hxtail : x ∈ b :: c :: d :: (ws1 ++ ds1) := by
    have hmemdrop : x ∈ ([a, b, c, d] ++ ws1 ++ ds1).drop pre.length := by
      rw [hxs]; exact List.mem_cons_self x xs
    rw [hctail] at hmemdrop
    obtain ⟨k, hk⟩ : ∃ k, pre.length = k + 1 := ⟨pre.length - 1, by omega⟩
    rw [hk, List.drop_succ_cons] at hmemdrop
    exact List.mem_of_mem_drop hmemdrop
  have hxr : x = 'r' ∨ x = 'R' := hx ▸ ha2
  rcases List.mem_cons.mp hxtail with h1 | hrest1
  · subst h1; rcases hb with h2 | h2 <;> rw [h2] at hxr <;> rcases hxr with h3 | h3 <;>
      exact absurd h3 (by decide)
  rcases List.mem_cons.mp hrest1 with h1 | hrest2
  · subst h1; rcases hc with h2 | h2 <;> rw [h2] at hxr <;> rcases hxr with h3 | h3 <;>
      exact absurd h3 (by decide)
  rcases List.mem_cons.mp hrest2 with h1 | hrest3
  · subst h1; rcases hd with h2 | h2 <;> rw [h2] at hxr <;> rcases hxr with h3 | h3 <;>
      exact absurd h3 (by decide)
  rcases List.mem_append.mp hrest3 with h1 | h1
  · have hws : isWsChar x = true := by
      rw [List.all_eq_true] at hws1
      exact hws1 x h1
    rcases ws_not_rule_start hws with ⟨hr1, hr2⟩
    rcases hxr with h3 | h3
    · exact hr1 h3
    · exact hr2 h3
  · have hdg : Char.isDigit x = true := by
      rw [List.all_eq_true] at hds1
      exact hds1 x h1
    rcases digit_not_rule_start hdg with ⟨hr1, hr2⟩
    rcases hxr with h3 | h3
    · exact hr1 h3
    · exact hr2 h3

theorem ruleRefAt_append_left {t : List Char} {n : Nat} (x : List Char)
    (h : RuleRefAt t n) : RuleRefAt (x ++ t) n := by
  obtain ⟨pre, w, ws, ds, post, hsplit, hrest⟩ := h
  exact ⟨x ++ pre, w, ws, ds, post, by rw [hsplit]; simp [List.append_assoc], hrest⟩

theorem findRuleRefs_cons_none {cHead : Char} {cs : List Char}
    (h : tryMatchAt (cHead :: cs) = none) :
    findRuleRefs (cHead :: cs) = findRuleRefs cs := by
  rw [findRuleRefs]
  split
  · rename_i p hp
    rw [h] at hp
    exact absurd hp (by simp)
  · rfl

theorem findRuleRefs_cons_some {cHead : Char} {cs : List Char} {n : Nat} {rest : List Char}
    (h : tryMatchAt (cHead :: cs) = some (n, rest)) :
    findRuleRefs (cHead :: cs) = n :: findRuleRefs rest := by
  rw [findRuleRefs]
  split
  · rename_i p hp
    rw [h] at hp
    injection hp with h2
    subst h2
    rfl
  · rename_i hp
    rw [h] at hp
    exact absurd hp (by simp)

theorem findRuleRefs_sound : ∀ (k : Nat) (s : List Char), s.length ≤ k →
    ∀ n, n ∈ findRuleRefs s → RuleRefAt s n := by
  intro k
  induction k with
  | zero =>
    intro s hs n hn
    cases s with
    | nil => rw [findRuleRefs] at hn; simp at hn
    | cons cHead cs => simp at hs
  | succ k ih =>
    intro s hs n hn
    cases s with
    | nil => rw [findRuleRefs] at hn; simp at hn
    | cons cHead cs =>
      cases hmatch : tryMatchAt (cHead :: cs) with
      | none =>
        rw [findRuleRefs_cons_none hmatch] at hn
        have h2 := ih cs (by simp at hs; omega) n hn
        exact ruleRefAt_append_left [cHead] h2
      | some pres =>
        obtain ⟨m, rest⟩ := pres
        rw [findRuleRefs_cons_some hmatch] at hn
        obtain ⟨w1, ws1, ds1, hsplit1, hw1, hws1, hne1, hds1, hpost1, hval1⟩ :=
          tryMatchAt_parts hmatch
        rcases List.mem_cons.mp hn with heq | hmem
        · subst heq
          exact ⟨[], w1, ws1, ds1, rest, by rw [hsplit1]; simp, hw1, hws1, hne1, hds1,
            hpost1, hval1⟩
        · have hlen : rest.length ≤ k := by
            have h4 := tryMatchAt_rest_length hmatch
            simp only [List.length_cons] at h4 hs
            omega
          have h2 := ih rest hlen n hmem
          rw [hsplit1]
          exact ruleRefAt_append_left (w1 ++ ws1 ++ ds1) h2

theorem findRuleRefs_complete : ∀ (k : Nat) (s : List Char), s.length ≤ k →
    ∀ n, RuleRefAt s n → n ∈ findRuleRefs s := by
  intro k
  induction k with
  | zero =>
    intro s hs n hn
    obtain ⟨pre, w, ws, ds, post, hsplit, hw, hrest⟩ := hn
    obtain ⟨a, b, c, d, hw4, _⟩ := isRuleWord_shape hw
    have hlen := congrArg List.length hsplit
    rw [hw4] at hlen
    simp only [List.length_append, List.length_cons, List.length_nil] at hlen
    omega
  | succ k ih =>
    intro s hs n hn
    obtain ⟨pre, w, ws, ds, post, hsplit, hw, hws, hne, hds, hpost, hval⟩ := hn
    cases hpre : pre with
    | nil =>
      rw [hpre] at hsplit
      simp only [List.nil_append] at hsplit
      have hmatch : tryMatchAt s = some (digitsToNat ds, post) := by
        rw [hsplit]
        exact tryMatchAt_of_parts hw hws hne hds hpost
      cases s with
      | nil => simp [tryMatchAt] at hmatch
      | cons cHead cs =>
        rw [hval] at hmatch
        rw [findRuleRefs_cons_some hmatch]
        exact List.mem_cons_self n _
    | cons p ps =>
      rw [hpre] at hsplit
      cases s with
      | nil =>
        have := congrArg List.length hsplit
        simp only [List.length_nil, List.length_append, List.length_cons] at this
        omega
      | cons cHead cs =>
        cases hmatch : tryMatchAt (cHead :: cs) with
        | none =>
          rw [findRuleRefs_cons_none hmatch]
          have hcs : cs = ps ++ w ++ ws ++ ds ++ post := by
            have h2 : cHead :: cs = p :: (ps ++ w ++ ws ++ ds ++ post) := by
              rw [hsplit]; simp [List.append_assoc]
            injection h2 with _ h3
          apply ih cs (by simp at hs; omega) n
          exact ⟨ps, w, ws, ds, post, hcs, hw, hws, hne, hds, hpost, hval⟩
        | some pres =>
          obtain ⟨m, rest⟩ := pres
          rw [findRuleRefs_cons_some hmatch]
          obtain ⟨w1, ws1, ds1, hsplit1, hw1, hws1, hne1, hds1, hpost1, hval1⟩ :=
            tryMatchAt_parts hmatch
          have heq2 : (w1 ++ ws1 ++ ds1) ++ rest = (p :: ps) ++ (w ++ (ws ++ ds ++ post)) := by
            rw [← hsplit1, hsplit]
            simp [List.append_assoc]
          have hbound := match_prefix_bound hw1 hws1 hds1 hw (by simp) heq2
          have hrest2 : rest =
              (p :: ps).drop (w1 ++ ws1 ++ ds1).length ++ (w ++ (ws ++ ds ++ post)) := by
            have h3 := congrArg (List.drop (w1 ++ ws1 ++ ds1).length) heq2
            rw [List.drop_left, List.drop_append_of_le_length hbound] at h3
            exact h3
          have hra : RuleRefAt rest n := by
            refine ⟨(p :: ps).drop (w1 ++ ws1 ++ ds1).length, w, ws, ds, post, ?_, hw, hws,
              hne, hds, hpost, hval⟩
            rw [hrest2]
            simp [List.append_assoc]
          have hlen : rest.length ≤ k := by
            have h4 := tryMatchAt_rest_length hmatch
            simp only [List.length_cons] at h4 hs
            omega
          exact List.mem_cons_of_mem _ (ih rest hlen n hra)

/-- Membership in the scan result is exactly the existence of an occurrence of
the pattern with that value. -/
theorem findRuleRefs_iff (s : List Char) (n : Nat) : n ∈ findRuleRefs s ↔ RuleRefAt s n :=
  ⟨findRuleRefs_sound s.length s Nat.le.refl n, findRuleRefs_complete s.length s Nat.le.refl n⟩

theorem mem_adjGet_adjAdd (a : Adj) (k v j x : Nat) :
    x ∈ adjGet (adjAdd a k v) j ↔ x ∈ adjGet a j ∨ (j = k ∧ x = v) := by
  induction a with
  | nil =>
    simp only [adjAdd, adjGet]
    by_cases h : (k == j)
    · have hj : j = k := by have := beq_iff_eq.mp h; rw [this]
      rw [if_pos h]
      simp [hj]
    · have hj : ¬ j = k := fun hh => h (by simp [hh])
      rw [if_neg h]
      simp [hj]
  | cons head rest ih =>
    obtain ⟨k2, vs⟩ := head
    simp only [adjAdd]
    by_cases h1 : (k2 == k)
    · rw [if_pos h1]
      simp only [adjGet]
      by_cases h2 : (k2 == j)
      · rw [if_pos h2, if_pos h2]
        have hjk : j = k := (beq_iff_eq.mp h2).symm.trans (beq_iff_eq.mp h1)
        by_cases hv : v ∈ vs
        · rw [if_pos hv]
          simp only [hjk, true_and]
          constructor
          · exact fun hx => Or.inl hx
          · rintro (hx | hx)
            · exact hx
            · rw [hx]; exact hv
        · rw [if_neg hv]
          simp [hjk]
      · rw [if_neg h2, if_neg h2]
        have hjk : ¬ (j = k ∧ x = v) := by
          rintro ⟨h3, _⟩
          apply h2
          have e1 : k2 = k := beq_iff_eq.mp h1
          simp [e1, h3]
        simp [hjk]
    · rw [if_neg h1]
      simp only [adjGet]
      by_cases h2 : (k2 == j)
      · rw [if_pos h2, if_pos h2]
        have hjk : ¬ (j = k ∧ x = v) := by
          rintro ⟨h3, _⟩
          apply h1
          have e2 : k2 = j := beq_iff_eq.mp h2
          simp [e2, h3]
        simp [hjk]
      · rw [if_neg h2, if_neg h2]
        exact ih

theorem mem_adjGet_foldl_refs (crid : Nat) (refs : List Nat) :
    ∀ (a : Adj) (j x : Nat),
      x ∈ adjGet (refs.foldl (fun a3 sub => adjAdd a3 sub crid) a) j ↔
        x ∈ adjGet a j ∨ (j ∈ refs ∧ x = crid) := by
  induction refs with
  | nil => intro a j x; simp
  | cons r rs ih =>
    intro a j x
    simp only [List.foldl_cons]
    rw [ih (adjAdd a r crid) j x, mem_adjGet_adjAdd]
    simp only [List.mem_cons]
    constructor
    · rintro ((hx | ⟨h1, h2⟩) | ⟨h1, h2⟩)
      · exact Or.inl hx
      · exact Or.inr ⟨Or.inl h1, h2⟩
      · exact Or.inr ⟨Or.inr h1, h2⟩
    · rintro (hx | ⟨h1 | h1, h2⟩)
      · exact Or.inl (Or.inl hx)
      · exact Or.inl (Or.inr ⟨h1, h2⟩)
      · exact Or.inr ⟨h1, h2⟩

theorem mem_adjGet_compositeStep (rows : List (Nat × Option String)) :
    ∀ (a : Adj) (j x : Nat),
      x ∈ adjGet (compositeStep a rows) j ↔
        x ∈ adjGet a j ∨
          ∃ e, (x, some e) ∈ rows ∧ ¬ e = "" ∧ j ∈ findRuleRefs e.data := by
  induction rows with
  | nil => intro a j x; simp [compositeStep]
  | cons row rest ih =>
    intro a j x
    obtain ⟨crid, exprOpt⟩ := row
    cases exprOpt with
    | none =>
      have hstep : compositeStep a ((crid, none) :: rest) = compositeStep a rest := rfl
      rw [hstep, ih]
      constructor
      · rintro (hx | ⟨e, he1, he2, he3⟩)
        · exact Or.inl hx
        · exact Or.inr ⟨e, List.mem_cons_of_mem _ he1, he2, he3⟩
      · rintro (hx | ⟨e, he1, he2, he3⟩)
        · exact Or.inl hx
        · rcases List.mem_cons.mp he1 with heq | hmem
          · exact absurd (congrArg Prod.snd heq) (by simp)
          · exact Or.inr ⟨e, hmem, he2, he3⟩
    | some expr =>
      have hstep : compositeStep a ((crid, some expr) :: rest) =
          compositeStep
            (if expr = "" then a
             else (findRuleRefs expr.data).foldl (fun a3 sub => adjAdd a3 sub crid) a)
            rest := rfl
      rw [hstep]
      by_cases hemp : expr = ""
      · rw [if_pos hemp, ih]
        constructor
        · rintro (hx | ⟨e, he1, he2, he3⟩)
          · exact Or.inl hx
          · exact Or.inr ⟨e, List.mem_cons_of_mem _ he1, he2, he3⟩
        · rintro (hx | ⟨e, he1, he2, he3⟩)
          · exact Or.inl hx
          · rcases List.mem_cons.mp he1 with heq | hmem
            · have he : e = "" := by
                have := congrArg Prod.snd heq
                simpa [hemp] using this
              exact absurd he he2
            · exact Or.inr ⟨e, hmem, he2, he3⟩
      · rw [if_neg hemp, ih, mem_adjGet_foldl_refs]
        constructor
        · rintro ((hx | ⟨h1, h2⟩) | ⟨e, he1, he2, he3⟩)
          · exact Or.inl hx
          · exact Or.inr ⟨expr, by rw [h2]; exact List.mem_cons_self _ _, hemp, h1⟩
          · exact Or.inr ⟨e, List.mem_cons_of_mem _ he1, he2, he3⟩
        · rintro (hx | ⟨e, he1, he2, he3⟩)
          · exact Or.inl (Or.inl hx)
          · rcases List.mem_cons.mp he1 with heq | hmem
            · have hx1 : x = crid := congrArg Prod.fst heq
              have hx2 : e = expr := by
                have := congrArg Prod.snd heq
                simpa using this
              exact Or.inl (Or.inr ⟨hx2 ▸ he3, hx1⟩)
            · exact Or.inr ⟨e, hmem, he2, he3⟩

/-- Modelled from the spec: the claimed composite-reference syntax — the
literal `Rule` (case-insensitive) immediately followed by one or more digits,
with no whitespace allowed in between; one scan attempt at a position. -/
def tryMatchImmAt (s : List Char) : Option (Nat × List Char) :=
  match s with
  | a :: b :: c :: d :: rest =>
    if isRuleWord [a, b, c, d] then
      let ds := rest.takeWhile Char.isDigit
      if ds.isEmpty then none else some (digitsToNat ds, rest.dropWhile Char.isDigit)
    else none
  | _ => none

theorem tryMatchImmAt_rest_length {s : List Char} {n : Nat} {rest : List Char}
    (h : tryMatchImmAt s = some (n, rest)) : rest.length < s.length := by
  match s with
  | [] => simp [tryMatchImmAt] at h
  | [a] => simp [tryMatchImmAt] at h
  | [a, b] => simp [tryMatchImmAt] at h
  | [a, b, c] => simp [tryMatchImmAt] at h
  | a :: b :: c :: d :: r =>
    simp only [tryMatchImmAt] at h
    by_cases hw : isRuleWord [a, b, c, d]
    · simp only [hw, if_true] at h
      by_cases he : (List.takeWhile Char.isDigit r).isEmpty = true
      · rw [if_pos he] at h; exact absurd h (by simp)
      · rw [if_neg he] at h
        simp only [Option.some.injEq, Prod.mk.injEq] at h
        have l1 : (List.dropWhile Char.isDigit r).length ≤ r.length := length_dropWhile_le2 _ _
        rw [← h.2]
        simp only [List.length_cons]
        omega
    · simp [hw] at h

/-- Modelled from the spec: the scan of the claimed immediate syntax
(left-to-right, non-overlapping), for comparison with `findRuleRefs`. -/
def findRuleRefsImm (s : List Char) : List Nat :=
  match s with
  | [] => []
  | cHead :: cs =>
    match hm : tryMatchImmAt (cHead :: cs) with
    | some p => p.1 :: findRuleRefsImm p.2
    | none => findRuleRefsImm cs
termination_by s.length
decreasing_by
  · exact tryMatchImmAt_rest_length hm
  · simp

theorem findRuleRefsImm_cons_none {cHead : Char} {cs : List Char}
    (h : tryMatchImmAt (cHead :: cs) = none) :
    findRuleRefsImm (cHead :: cs) = findRuleRefsImm cs := by
  rw [findRuleRefsImm]
  split
  · rename_i p hp
    rw [h] at hp
    exact absurd hp (by simp)
  · rfl

/-- C4, amended: for every composite-rule row, the relationship loader's
composite phase adds the edge subRule → composite exactly for the occurrences
in the (non-empty) logic-expression text of the literal `Rule`
(case-insensitive) followed by optional whitespace and then a maximal run of
one or more digits — the digit run's value being the sub-rule id — and for no
other substrings. -/
theorem c4_composite_reference_edges (a : Adj) (rows : List (Nat × Option String))
    (s c : Nat) :
    c ∈ adjGet (compositeStep a rows) s ↔
      c ∈ adjGet a s ∨ ∃ e, (c, some e) ∈ rows ∧ ¬ e = "" ∧ RuleRefAt e.data s := by
  rw [mem_adjGet_compositeStep]
  simp only [findRuleRefs_iff]

/-- C4 counterexample: the text `Rule 7` contains no occurrence of `Rule`
immediately followed by digits (the claim's syntax, scanned by
`findRuleRefsImm`), yet the loader adds the edge 7 → 1 for composite rule 1
with that logic expression, because the source pattern permits whitespace. -/
theorem c4_counterexample :
    1 ∈ adjGet (loadAdjacency [] [] [] [(1, some "Rule 7")]) 7 ∧
    findRuleRefsImm ("Rule 7".data) = [] := by
  have hchars : ("Rule 7".data) = ['R', 'u', 'l', 'e', ' ', '7'] := rfl
  constructor
  · have h2 : findRuleRefs ['R', 'u', 'l', 'e', ' ', '7'] = [7] := by
      rw [findRuleRefs_cons_some
        (show tryMatchAt ('R' :: ['u', 'l', 'e', ' ', '7']) = some (7, []) by decide)]
      rw [findRuleRefs]
    have h3 : loadAdjacency [] [] [] [(1, some "Rule 7")] = [(7, [1])] := by
      show (if ("Rule 7" : String) = "" then ([] : Adj)
            else (findRuleRefs "Rule 7".data).foldl (fun a3 sub => adjAdd a3 sub 1) []) =
        [(7, [1])]
      rw [if_neg (by decide), hchars, h2]
      rfl
    rw [h3]
    decide
  · rw [hchars]
    rw [findRuleRefsImm_cons_none (by decide), findRuleRefsImm_cons_none (by decide),
      findRuleRefsImm_cons_none (by decide), findRuleRefsImm_cons_none (by decide),
      findRuleRefsImm_cons_none (by decide), findRuleRefsImm_cons_none (by decide),
      findRuleRefsImm]

/-- Input of the C1 failing run: three rules that all succeed, rule 3 a child
of rule 1 and also the target of a global-critical link from rule 2, so rule 3
is enqueued twice. -/
def c1Rules : List BrmRule :=
  [⟨1, none, 0, 0, "SELECT", none, none, "APPROVED", "ACTIVE"⟩,
   ⟨2, none, 0, 0, "SELECT", none, none, "APPROVED", "ACTIVE"⟩,
   ⟨3, some 1, 0, 0, "SELECT", none, none, "APPROVED", "ACTIVE"⟩]

/-- Database responses of the C1 run: every rule's SQL returns a single row
whose first column is 1 (success). -/
def c1Db : Nat → SqlOutcome := fun _ => SqlOutcome.resultRows [[SqlVal.intVal 1]]

/-- C1: the engine has no execute-once guard — rule 3, re-enqueued through a
second path after succeeding, is executed (and committed) a second time: the
returned executed list is [1, 2, 3, 3], with rule 3 occurring twice. -/
theorem c1_duplicate_execution :
    execute_rules_unified_bfs c1Rules [(2, 3)] [] [] c1Db false true 10 =
      Except.ok ([1, 2, 3, 3], []) ∧ List.count 3 [1, 2, 3, 3] = 2 := by
  constructor
  · rfl
  · decide

/-- C2, amended: if a critical or global rule fails its transaction during a
run, then every node reachable from it along paths avoiding the rules already
skipped at that moment ends the run in the skipped set, and none of them is
appended to the executed list after the failure — a node of that set is in the
final executed list only if it had already been executed before the failure. -/
theorem c2_critical_failure_cascade (adj : Adj) (rm : Nat → Option BrmRule)
    (db : Nat → SqlOutcome) (dry : Bool) (fuel : Nat) (rid : Nat)
    (rest ex sk : List Nat) (info : BrmRule)
    (hmap : rm rid = some info)
    (hcrit : info.criticalRule = 1 ∨ info.isGlobal = 1)
    (hfail : (run_single_rule_transaction info (db rid) dry).success = false)
    (hns : ¬ rid ∈ sk) (y : Nat) (hy : ReachAvoid adj sk rid y) :
    y ∈ (engineRun adj rm db dry fuel
        (engineStep adj rm db dry ⟨rid :: rest, ex, sk⟩)).skipped ∧
      (y ∈ (engineRun adj rm db dry fuel
        (engineStep adj rm db dry ⟨rid :: rest, ex, sk⟩)).executed ↔ y ∈ ex) := by
  rw [engineStep_failure adj rm db dry rid rest ex sk info hns hmap hfail]
  have hy1 : y ∈ (BfsState.mk rest ex
      (addIfAbsent (cascadeChildren adj (adjGet adj rid) sk) rid)).skipped :=
    cascade_covers adj sk rid y hy
  refine ⟨engineRun_skipped_mono adj rm db dry fuel _ y hy1, ?_, ?_⟩
  · exact fun hmem => engineRun_executed_new adj rm db dry fuel _ y hy1 hmem
  · exact fun hmem => engineRun_executed_mono adj rm db dry fuel _ y hmem

/-- The critical root rule of the C2 witness chain A(1) → B(2) → C(3). -/
def c2wr1 : BrmRule := ⟨1, none, 1, 0, "SELECT", none, none, "APPROVED", "ACTIVE"⟩

/-- Rules of the C2 witness chain. -/
def c2wRules : List BrmRule :=
  [c2wr1,
   ⟨2, some 1, 0, 0, "SELECT", none, none, "APPROVED", "ACTIVE"⟩,
   ⟨3, some 2, 0, 0, "SELECT", none, none, "APPROVED", "ACTIVE"⟩]

/-- Adjacency of the witness chain (parent edges 1 → 2 → 3). -/
def c2wAdj : Adj := [(1, [2]), (2, [3])]

/-- Database responses of the witness chain: every rule fails. -/
def c2wDb : Nat → SqlOutcome := fun _ => SqlOutcome.resultRows [[SqlVal.intVal 0]]

/-- C2 witness: applying the cascade theorem to the chain A(root) → B → C with
the critical rule 1 failing first places node 3 in the final skipped set and
keeps the executed list free of it. -/
theorem c2_witness :
    3 ∈ (engineRun c2wAdj (getAllRulesMap c2wRules) c2wDb false 5
        (engineStep c2wAdj (getAllRulesMap c2wRules) c2wDb false ⟨[1], [], []⟩)).skipped ∧
      (3 ∈ (engineRun c2wAdj (getAllRulesMap c2wRules) c2wDb false 5
        (engineStep c2wAdj (getAllRulesMap c2wRules) c2wDb false ⟨[1], [], []⟩)).executed ↔
        3 ∈ ([] : List Nat)) := by
  apply c2_critical_failure_cascade c2wAdj (getAllRulesMap c2wRules) c2wDb false 5 1 [] [] []
    c2wr1 rfl (Or.inl rfl) (by decide) (by simp) 3
  exact ReachAvoid.step 2 3
    (ReachAvoid.step 1 2 (ReachAvoid.refl (by simp)) (by decide) (by simp))
    (by decide) (by simp)

/-- The critical conflicting rule of the C2 counterexample. -/
def c2r2 : BrmRule := ⟨2, none, 1, 0, "SELECT", none, none, "APPROVED", "ACTIVE"⟩

/-- Rules of the C2 counterexample: rule 1 succeeds, rule 2 is critical and
fails; the two are a bidirectional conflict pair. -/
def c2Rules : List BrmRule :=
  [⟨1, none, 0, 0, "SELECT", none, none, "APPROVED", "ACTIVE"⟩, c2r2]

/-- Database responses of the C2 counterexample: rule 2 fails, rule 1 passes. -/
def c2Db : Nat → SqlOutcome := fun rid =>
  if rid == 2 then SqlOutcome.resultRows [[SqlVal.intVal 0]]
  else SqlOutcome.resultRows [[SqlVal.intVal 1]]

/-- Adjacency of the C2 counterexample (the conflict pair 1 ↔ 2). -/
def c2Adj : Adj := [(1, [2]), (2, [1])]

/-- C2 counterexample: rule 2 is critical and fails its transaction during the
run, rule 1 is reachable from rule 2 in the adjacency graph, yet the run ends
with executed = [1] — the claim's "absent from the executed list" is false for
a node executed before the failure. -/
theorem c2_counterexample :
    getAllRulesMap c2Rules 2 = some c2r2 ∧ c2r2.criticalRule = 1 ∧
    (run_single_rule_transaction c2r2 (c2Db 2) false).success = false ∧
    ReachE c2Adj 2 1 ∧
    execute_rules_unified_bfs c2Rules [] [(1, 2, 0)] [] c2Db false true 10 =
      Except.ok ([1], [1, 2]) ∧
    1 ∈ [1] := by
  refine ⟨rfl, rfl, by decide, ReachE.base 1 (by decide), ?_, by decide⟩
  have hcasc : cascadeChildren c2Adj [1] [] = [1, 2] := by
    show bfsVisit c2Adj [1] [] = [1, 2]
    simp [bfsVisit, adjGet, c2Adj]
  have e1 : engineStep c2Adj (getAllRulesMap c2Rules) c2Db false ⟨[1, 2], [], []⟩ =
      ⟨[2, 2], [1], []⟩ := by decide
  have e2 : engineStep c2Adj (getAllRulesMap c2Rules) c2Db false ⟨[2, 2], [1], []⟩ =
      ⟨[2], [1], [1, 2]⟩ := by
    rw [engineStep_failure c2Adj (getAllRulesMap c2Rules) c2Db false 2 [2] [1] [] c2r2
      (by simp) rfl (by decide)]
    rw [show adjGet c2Adj 2 = [1] from rfl, hcasc]
    rfl
  have e3 : engineStep c2Adj (getAllRulesMap c2Rules) c2Db false ⟨[2], [1], [1, 2]⟩ =
      ⟨[], [1], [1, 2]⟩ := by decide
  have hrun : engineRun c2Adj (getAllRulesMap c2Rules) c2Db false 10 ⟨[1, 2], [], []⟩ =
      ⟨[], [1], [1, 2]⟩ := by
    calc engineRun c2Adj (getAllRulesMap c2Rules) c2Db false 10 ⟨[1, 2], [], []⟩
        = engineRun c2Adj (getAllRulesMap c2Rules) c2Db false 9
            (engineStep c2Adj (getAllRulesMap c2Rules) c2Db false ⟨[1, 2], [], []⟩) := rfl
      _ = engineRun c2Adj (getAllRulesMap c2Rules) c2Db false 9 ⟨[2, 2], [1], []⟩ := by
            rw [e1]
      _ = engineRun c2Adj (getAllRulesMap c2Rules) c2Db false 8 ⟨[2], [1], [1, 2]⟩ := by
            rw [show engineRun c2Adj (getAllRulesMap c2Rules) c2Db false 9 ⟨[2, 2], [1], []⟩ =
              engineRun c2Adj (getAllRulesMap c2Rules) c2Db false 8
                (engineStep c2Adj (getAllRulesMap c2Rules) c2Db false ⟨[2, 2], [1], []⟩)
              from rfl, e2]
      _ = engineRun c2Adj (getAllRulesMap c2Rules) c2Db false 7 ⟨[], [1], [1, 2]⟩ := by
            rw [show engineRun c2Adj (getAllRulesMap c2Rules) c2Db false 8 ⟨[2], [1], [1, 2]⟩ =
              engineRun c2Adj (getAllRulesMap c2Rules) c2Db false 7
                (engineStep c2Adj (getAllRulesMap c2Rules) c2Db false ⟨[2], [1], [1, 2]⟩)
              from rfl, e3]
      _ = ⟨[], [1], [1, 2]⟩ := rfl
  rw [show execute_rules_unified_bfs c2Rules [] [(1, 2, 0)] [] c2Db false true 10 =
    Except.ok ((engineRun c2Adj (getAllRulesMap c2Rules) c2Db false 10
        ⟨[1, 2], [], []⟩).executed,
      (engineRun c2Adj (getAllRulesMap c2Rules) c2Db false 10 ⟨[1, 2], [], []⟩).skipped)
    from rfl, hrun]

/-- C5, amended: whenever any rule fails its transaction — critical or not —
the engine runs the identical descendant-skip cascade, so every node reachable
from the failing rule along paths avoiding the already-skipped set is marked
skipped; the critical/global test in the failure branch has no observable
effect (the engine's step function is unchanged by arbitrary modification of
the two flags). -/
theorem c5_failure_branch_uniform :
    (∀ (adj : Adj) (rm1 rm2 : Nat → Option BrmRule) (db : Nat → SqlOutcome) (dry : Bool)
      (st : BfsState),
      (∀ x, Option.map stripFlags (rm1 x) = Option.map stripFlags (rm2 x)) →
      engineStep adj rm1 db dry st = engineStep adj rm2 db dry st) ∧
    (∀ (adj : Adj) (rm : Nat → Option BrmRule) (db : Nat → SqlOutcome) (dry : Bool)
      (rid : Nat) (rest ex sk : List Nat) (info : BrmRule),
      rm rid = some info →
      (run_single_rule_transaction info (db rid) dry).success = false →
      ¬ rid ∈ sk → ∀ y, ReachAvoid adj sk rid y →
      y ∈ (engineStep adj rm db dry ⟨rid :: rest, ex, sk⟩).skipped) := by
  constructor
  · exact fun adj rm1 rm2 db dry st h => engineStep_flags_indep adj rm1 rm2 db dry st h
  · intro adj rm db dry rid rest ex sk info hmap hfail hns y hy
    rw [engineStep_failure adj rm db dry rid rest ex sk info hns hmap hfail]
    exact cascade_covers adj sk rid y hy

/-- A failing rule flagged critical and global (C5 witness). -/
def c5wRule1 : BrmRule := ⟨4, none, 1, 1, "SELECT", none, none, "APPROVED", "ACTIVE"⟩

/-- The same failing rule with both flags clear (C5 witness). -/
def c5wRule2 : BrmRule := ⟨4, none, 0, 0, "SELECT", none, none, "APPROVED", "ACTIVE"⟩

/-- Rule map of the C5 witness with the critical variant. -/
def c5wRm1 : Nat → Option BrmRule := fun x => if x == 4 then some c5wRule1 else none

/-- Rule map of the C5 witness with the non-critical variant. -/
def c5wRm2 : Nat → Option BrmRule := fun x => if x == 4 then some c5wRule2 else none

/-- Database responses of the C5 witness: everything fails. -/
def c5wDb : Nat → SqlOutcome := fun _ => SqlOutcome.resultRows [[SqlVal.intVal 0]]

/-- Adjacency of the C5 witness: the failing rule 4 has the child 5. -/
def c5wAdj : Adj := [(4, [5])]

/-- C5 witness: flipping both flags of the failing rule leaves the engine step
unchanged, and the non-critical failure still marks child 5 skipped. -/
theorem c5_witness :
    engineStep c5wAdj c5wRm1 c5wDb false ⟨[4], [], []⟩ =
      engineStep c5wAdj c5wRm2 c5wDb false ⟨[4], [], []⟩ ∧
    5 ∈ (engineStep c5wAdj c5wRm2 c5wDb false ⟨[4], [], []⟩).skipped := by
  constructor
  · apply c5_failure_branch_uniform.1
    intro x
    by_cases h : x == 4 <;> simp [c5wRm1, c5wRm2, h, stripFlags, c5wRule1, c5wRule2]
  · exact c5_failure_branch_uniform.2 c5wAdj c5wRm2 c5wDb false 4 [] [] [] c5wRule2 rfl
      (by decide) (by decide) 5
      (ReachAvoid.step 4 5 (ReachAvoid.refl (by decide)) (by decide) (by decide))

/-- The failing non-critical rule of the C5 counterexample. -/
def c5xr4 : BrmRule := ⟨4, some 2, 0, 0, "SELECT", none, none, "APPROVED", "ACTIVE"⟩

/-- Rules of the C5 counterexample: 1 → 2 → 4 by parent links; rules 3 and 5
exist only as dangling edge targets. -/
def c5xRules : List BrmRule :=
  [⟨1, none, 0, 0, "SELECT", none, none, "APPROVED", "ACTIVE"⟩,
   ⟨2, some 1, 0, 0, "SELECT", none, none, "APPROVED", "ACTIVE"⟩, c5xr4]

/-- Database responses of the C5 counterexample: only rule 4 fails. -/
def c5xDb : Nat → SqlOutcome := fun rid =>
  if rid == 4 then SqlOutcome.resultRows [[SqlVal.intVal 0]]
  else SqlOutcome.resultRows [[SqlVal.intVal 1]]

/-- Adjacency of the C5 counterexample: parent edges 1 → 2 → 4 plus
global-critical links 1 → 3, 4 → 3 and 3 → 5. -/
def c5xAdj : Adj := [(1, [2, 3]), (2, [4]), (4, [3]), (3, [5])]

/-- C5 counterexample: the non-critical rule 4 fails during the run and node 5
is reachable from it (4 → 3 → 5), yet the run ends with skipped = [3, 4]: the
cascade does not descend through node 3, which was already skipped as a
dangling reference, so "every node reachable from it is marked skipped" is
false as stated. -/
theorem c5_counterexample :
    getAllRulesMap c5xRules 4 = some c5xr4 ∧
    (run_single_rule_transaction c5xr4 (c5xDb 4) false).success = false ∧
    ReachE c5xAdj 4 5 ∧
    execute_rules_unified_bfs c5xRules [(1, 3), (4, 3), (3, 5)] [] [] c5xDb false true 10 =
      Except.ok ([1, 2], [3, 4]) ∧
    ¬ 5 ∈ [3, 4] := by
  refine ⟨rfl, by decide, ReachE.step 3 5 (ReachE.base 3 (by decide)) (by decide), ?_,
    by decide⟩
  have hcasc : cascadeChildren c5xAdj [3] [3] = [3] := by
    show bfsVisit c5xAdj [3] [3] = [3]
    simp [bfsVisit]
  have e1 : engineStep c5xAdj (getAllRulesMap c5xRules) c5xDb false ⟨[1], [], []⟩ =
      ⟨[2, 3], [1], []⟩ := by decide
  have e2 : engineStep c5xAdj (getAllRulesMap c5xRules) c5xDb false ⟨[2, 3], [1], []⟩ =
      ⟨[3, 4], [1, 2], []⟩ := by decide
  have e3 : engineStep c5xAdj (getAllRulesMap c5xRules) c5xDb false ⟨[3, 4], [1, 2], []⟩ =
      ⟨[4], [1, 2], [3]⟩ := by decide
  have e4 : engineStep c5xAdj (getAllRulesMap c5xRules) c5xDb false ⟨[4], [1, 2], [3]⟩ =
      ⟨[], [1, 2], [3, 4]⟩ := by
    rw [engineStep_failure c5xAdj (getAllRulesMap c5xRules) c5xDb false 4 [] [1, 2] [3]
      c5xr4 (by decide) rfl (by decide)]
    rw [show adjGet c5xAdj 4 = [3] from rfl, hcasc]
    rfl
  have hrun : engineRun c5xAdj (getAllRulesMap c5xRules) c5xDb false 10 ⟨[1], [], []⟩ =
      ⟨[], [1, 2], [3, 4]⟩ := by
    calc engineRun c5xAdj (getAllRulesMap c5xRules) c5xDb false 10 ⟨[1], [], []⟩
        = engineRun c5xAdj (getAllRulesMap c5xRules) c5xDb false 9
            (engineStep c5xAdj (getAllRulesMap c5xRules) c5xDb false ⟨[1], [], []⟩) := rfl
      _ = engineRun c5xAdj (getAllRulesMap c5xRules) c5xDb false 9 ⟨[2, 3], [1], []⟩ := by
            rw [e1]
      _ = engineRun c5xAdj (getAllRulesMap c5xRules) c5xDb false 8
            (engineStep c5xAdj (getAllRulesMap c5xRules) c5xDb false
              ⟨[2, 3], [1], []⟩) := rfl
      _ = engineRun c5xAdj (getAllRulesMap c5xRules) c5xDb false 8 ⟨[3, 4], [1, 2], []⟩ := by
            rw [e2]
      _ = engineRun c5xAdj (getAllRulesMap c5xRules) c5xDb false 7
            (engineStep c5xAdj (getAllRulesMap c5xRules) c5xDb false
              ⟨[3, 4], [1, 2], []⟩) := rfl
      _ = engineRun c5xAdj (getAllRulesMap c5xRules) c5xDb false 7 ⟨[4], [1, 2], [3]⟩ := by
            rw [e3]
      _ = engineRun c5xAdj (getAllRulesMap c5xRules) c5xDb false 6
            (engineStep c5xAdj (getAllRulesMap c5xRules) c5xDb false
              ⟨[4], [1, 2], [3]⟩) := rfl
      _ = engineRun c5xAdj (getAllRulesMap c5xRules) c5xDb false 6 ⟨[], [1, 2], [3, 4]⟩ := by
            rw [e4]
      _ = ⟨[], [1, 2], [3, 4]⟩ := rfl
  rw [show execute_rules_unified_bfs c5xRules [(1, 3), (4, 3), (3, 5)] [] [] c5xDb false
      true 10 =
    Except.ok ((engineRun c5xAdj (getAllRulesMap c5xRules) c5xDb false 10
        ⟨[1], [], []⟩).executed,
      (engineRun c5xAdj (getAllRulesMap c5xRules) c5xDb false 10 ⟨[1], [], []⟩).skipped)
    from rfl, hrun]

/-- C6: for a standard (non-decision-table) rule whose SQL executes without
exception and returns well-formed rows, the runner succeeds iff no rows are
returned (pass-by-default) or the first column of the first returned row
equals 1; on an exception it returns success = false with the exception text
as the message. -/
theorem c6_runner_success (info : BrmRule) (dry : Bool)
    (hop : ¬ info.operationType = "DECISION_TABLE") :
    (∀ rows : List (List SqlVal), (∀ r ∈ rows, r ≠ []) →
      ((run_single_rule_transaction info (SqlOutcome.resultRows rows) dry).success = true ↔
        rows = [] ∨ ∃ r rest, rows = r :: rest ∧ r.head? = some (SqlVal.intVal 1))) ∧
    (∀ msg : String,
      (run_single_rule_transaction info (SqlOutcome.raised msg) dry).success = false ∧
      (run_single_rule_transaction info (SqlOutcome.raised msg) dry).message = msg) := by
  constructor
  · intro rows hrows
    simp only [run_single_rule_transaction, if_neg hop]
    cases rows with
    | nil => simp [firstResult, sqlValIsOne]
    | cons r rest =>
      cases hr : r with
      | nil => exact absurd hr (hrows r (List.mem_cons_self _ _))
      | cons v vs =>
        simp only [firstResult]
        constructor
        · intro hs
          refine Or.inr ⟨v :: vs, rest, rfl, ?_⟩
          cases v with
          | intVal i =>
            have : i = 1 := by simpa [sqlValIsOne] using hs
            simp [this]
          | strVal s2 => simp [sqlValIsOne] at hs
          | nullVal => simp [sqlValIsOne] at hs
        · rintro (h | ⟨r2, rest2, hsplit, hhead⟩)
          · exact absurd h (by simp)
          · have hr2 : r2 = v :: vs := by
              have h5 := congrArg (fun l => List.head? l) hsplit
              simp at h5
              exact h5.symm
            rw [hr2] at hhead
            simp only [List.head?_cons, Option.some.injEq] at hhead
            rw [hhead]
            simp [sqlValIsOne]
  · intro msg
    constructor
    · simp [run_single_rule_transaction, if_neg hop]
    · simp [run_single_rule_transaction, if_neg hop]

/-- A standard SELECT rule used by the C6 witness. -/
def c6Info : BrmRule := ⟨7, none, 0, 0, "SELECT", none, none, "APPROVED", "ACTIVE"⟩

/-- C6 witness: zero returned rows are treated as success, and a raised
exception yields failure with the exception text. -/
theorem c6_witness :
    (run_single_rule_transaction c6Info (SqlOutcome.resultRows []) false).success = true ∧
    (run_single_rule_transaction c6Info (SqlOutcome.raised "boom") false).success = false ∧
    (run_single_rule_transaction c6Info (SqlOutcome.raised "boom") false).message = "boom" := by
  refine ⟨?_, ?_, ?_⟩
  · exact ((c6_runner_success c6Info false (by decide)).1 [] (by simp)).mpr (Or.inl rfl)
  · exact ((c6_runner_success c6Info false (by decide)).2 "boom").1
  · exact ((c6_runner_success c6Info false (by decide)).2 "boom").2

/-- C7, amended: for a standard (non-decision-table) rule the transaction is
rolled back exactly when dry-run is set or the rule does not succeed (the
exception path included) and committed exactly when the rule succeeds and
dry-run is not set; a decision-table rule issues no transaction statements at
all, so "dry-run always rolls back" does not extend to it. -/
theorem c7_transaction_policy (info : BrmRule) (o : SqlOutcome) (dry : Bool) :
    (¬ info.operationType = "DECISION_TABLE" →
      ((TxOp.rollback ∈ (run_single_rule_transaction info o dry).txOps ↔
        (dry = true ∨ (run_single_rule_transaction info o dry).success = false)) ∧
       (TxOp.commit ∈ (run_single_rule_transaction info o dry).txOps ↔
        ((run_single_rule_transaction info o dry).success = true ∧ dry = false)))) ∧
    (info.operationType = "DECISION_TABLE" →
      (run_single_rule_transaction info o dry).txOps = []) := by
  constructor
  · intro hop
    cases o with
    | raised msg =>
      simp only [run_single_rule_transaction, if_neg hop]
      refine ⟨?_, ?_⟩ <;> simp
    | resultRows rows =>
      simp only [run_single_rule_transaction, if_neg hop]
      cases hdry : dry <;> cases hs : sqlValIsOne (firstResult rows) <;> simp
  · intro hop
    simp [run_single_rule_transaction, hop]

/-- A decision-table rule used by the C7 witness and counterexample. -/
def c7Dt : BrmRule := ⟨9, none, 0, 0, "DECISION_TABLE", some 5, none, "APPROVED", "ACTIVE"⟩

/-- A standard rule used by the C7 witness. -/
def c7Std : BrmRule := ⟨8, none, 0, 0, "SELECT", none, none, "APPROVED", "ACTIVE"⟩

/-- C7 witness: a standard successful rule under dry-run rolls back, and a
decision-table rule issues no transaction statements. -/
theorem c7_witness :
    TxOp.rollback ∈ (run_single_rule_transaction c7Std
      (SqlOutcome.resultRows [[SqlVal.intVal 1]]) true).txOps ∧
    (run_single_rule_transaction c7Dt (SqlOutcome.resultRows []) true).txOps = [] := by
  constructor
  · exact ((c7_transaction_policy c7Std (SqlOutcome.resultRows [[SqlVal.intVal 1]])
      true).1 (by decide)).1.mpr (Or.inl rfl)
  · exact (c7_transaction_policy c7Dt (SqlOutcome.resultRows []) true).2 rfl

/-- C7 counterexample: a decision-table rule executed with dry-run set
succeeds and issues no rollback (no transaction statement at all), refuting
"the runner's transaction is rolled back whenever dry-run is set" as a
statement about every rule execution. -/
theorem c7_counterexample :
    (run_single_rule_transaction c7Dt (SqlOutcome.resultRows []) true).success = true ∧
    (run_single_rule_transaction c7Dt (SqlOutcome.resultRows []) true).txOps = [] ∧
    ¬ TxOp.rollback ∈ (run_single_rule_transaction c7Dt
      (SqlOutcome.resultRows []) true).txOps := by
  exact ⟨rfl, rfl, by decide⟩

/-- C3, amended: a failed audit-log insert is logged and then re-raised by
`insert_audit_log`, so the triggering business operation aborts before its
commit: `add_rule` returns the audit error and neither commits nor creates the
approvals. -/
theorem c3_audit_failure_aborts (dbOut : AddRuleDb) (ruleSql : String)
    (dtId : Option Nat) (newId : Nat) (err : String)
    (hdup : dbOut.duplicateNameExists = false)
    (hins : dbOut.insertOutcome = Except.ok newId)
    (haudit : dbOut.auditInsertOutcome = Except.error err) :
    add_rule dbOut ruleSql dtId = Except.error err := by
  simp [add_rule, hdup, hins, haudit, insert_audit_log]

/-- C3 witness: a concrete failing audit insert aborts a concrete add_rule. -/
theorem c3_witness :
    add_rule ⟨false, Except.ok 7, Except.error "audit down"⟩ "SELECT 1" none =
      Except.error "audit down" :=
  c3_audit_failure_aborts ⟨false, Except.ok 7, Except.error "audit down"⟩ "SELECT 1" none
    7 "audit down" rfl rfl rfl

/-- The database outcomes of the C3 counterexample: no duplicate, the rule
insert succeeds with id 42, the audit insert fails. -/
def c3Db : AddRuleDb := ⟨false, Except.ok 42, Except.error "disk full"⟩

/-- C3 counterexample: the audit-log insert failure is not merely logged — the
add-rule operation returns the audit error instead of completing, so no commit
and no approval creation take place. -/
theorem c3_counterexample :
    add_rule c3Db "UPDATE T SET X=1" none = Except.error "disk full" ∧
    ∀ res : Nat × List CrudEvent, ¬ add_rule c3Db "UPDATE T SET X=1" none = Except.ok res := by
  have h1 : add_rule c3Db "UPDATE T SET X=1" none = Except.error "disk full" := rfl
  refine ⟨h1, ?_⟩
  intro res h2
  rw [h1] at h2
  exact absurd h2 (by simp)

/-- C8: a lock older than the 30-minute TTL is always acquirable without
force (the expired row is lazily deleted first), and a live lock held by a
different holder always raises a locking-conflict error when force is false. -/
theorem c8_lock_rules (locks : List LockRow) (now : Nat) (ruleId : Nat) (holder : String) :
    ((∀ l ∈ locks, l.ruleId = ruleId → now - l.lockTimestamp > 30) →
      ∃ locks2, lock_rule locks now ruleId holder false = Except.ok locks2) ∧
    (∀ l, ((locks.filter (fun l2 => ¬ now - l2.lockTimestamp > 30)).filter
        (fun l2 => l2.ruleId == ruleId)).head? = some l →
      ¬ l.lockedBy = holder →
      ∃ msg, lock_rule locks now ruleId holder false = Except.error msg) := by
  constructor
  · intro hexp
    have hnil : ((locks.filter (fun l2 => ¬ now - l2.lockTimestamp > 30)).filter
        (fun l2 => l2.ruleId == ruleId)) = [] := by
      apply List.filter_eq_nil_iff.mpr
      intro l hl
      rcases List.mem_filter.mp hl with ⟨hmem, hlive⟩
      intro hbeq
      have hid : l.ruleId = ruleId := by simpa using hbeq
      have := hexp l hmem hid
      simp only [decide_not] at hlive
      rw [decide_eq_true this] at hlive
      simp at hlive
    refine ⟨locks.filter (fun l2 => ¬ now - l2.lockTimestamp > 30) ++ [⟨ruleId, holder, now⟩], ?_⟩
    simp only [lock_rule, hnil, List.head?_nil]
  · intro l hhead hne
    refine ⟨"Rule " ++ toString ruleId ++ " is already locked by " ++ l.lockedBy ++ ".", ?_⟩
    simp only [lock_rule, hhead]
    rw [if_pos ⟨hne, trivial⟩]

/-- C8 witness: a 100-minute-old lock by alice does not block bob, while a
10-minute-old lock by alice does. -/
theorem c8_witness :
    (∃ locks2, lock_rule [⟨1, "alice", 0⟩] 100 1 "bob" false = Except.ok locks2) ∧
    (∃ msg, lock_rule [⟨1, "alice", 90⟩] 100 1 "bob" false = Except.error msg) := by
  constructor
  · exact (c8_lock_rules [⟨1, "alice", 0⟩] 100 1 "bob").1 (by decide)
  · exact (c8_lock_rules [⟨1, "alice", 90⟩] 100 1 "bob").2 ⟨1, "alice", 90⟩ (by decide)
      (by decide)

theorem stageRowsFrom_ruleId (ruleId : Nat) (approvers : String → List String) :
    ∀ (pipeline : List String) (stage : Nat) (row : ApprovalRow),
      row ∈ stageRowsFrom ruleId approvers stage pipeline → row.ruleId = ruleId := by
  intro pipeline
  induction pipeline with
  | nil => intro stage row hrow; simp [stageRowsFrom] at hrow
  | cons grp rest ih =>
    intro stage row hrow
    simp only [stageRowsFrom] at hrow
    rcases List.mem_append.mp hrow with h1 | h2
    · cases happ : approvers grp with
      | nil =>
        rw [happ] at h1
        simp only [List.mem_singleton] at h1
        rw [h1]
      | cons u us =>
        rw [happ] at h1
        rcases List.mem_map.mp h1 with ⟨u2, _, hu2⟩
        rw [← hu2]
    · exact ih (stage + 1) row h2

/-- C9: the approval-pipeline builder is idempotent — running it twice with
the same inputs leaves exactly the same set of pending approval rows as
running it once, because each run first deletes the rule's approval rows. -/
theorem c9_pipeline_idempotent (db : List ApprovalRow) (adj : Adj) (rules : List BrmRule)
    (approvers : String → List String) (ruleId : Nat) (initiatedBy : String) :
    create_multistep_approvals
      (create_multistep_approvals db adj rules approvers ruleId initiatedBy)
      adj rules approvers ruleId initiatedBy =
    create_multistep_approvals db adj rules approvers ruleId initiatedBy := by
  unfold create_multistep_approvals
  rw [List.filter_append]
  have h1 : (stageRowsFrom ruleId approvers 1
      (buildPipeline (find_impacted_business_groups adj rules ruleId))).filter
        (fun row => ¬ row.ruleId == ruleId) = [] := by
    apply List.filter_eq_nil_iff.mpr
    intro row hrow
    have := stageRowsFrom_ruleId ruleId approvers _ 1 row hrow
    simp [this]
  rw [h1, List.append_nil, List.filter_filter]
  have h2 : ∀ row : ApprovalRow,
      ((¬ row.ruleId == ruleId : Bool) && (¬ row.ruleId == ruleId : Bool)) =
        (¬ row.ruleId == ruleId : Bool) := by
    intro row
    exact Bool.and_self _
  rw [List.filter_congr (fun row _ => h2 row)]

theorem lock_rule_force_ok (locks : List LockRow) (now : Nat) (ruleId : Nat)
    (holder : String) :
    ∃ locks2, lock_rule locks now ruleId holder true = Except.ok locks2 := by
  unfold lock_rule
  split
  · rename_i l hl
    rw [if_neg (by rintro ⟨_, hforce⟩; exact absurd hforce (by simp))]
    exact ⟨_, rfl⟩
  · exact ⟨_, rfl⟩

theorem unlock_rule_force_ok (locks : List LockRow) (ruleId : Nat) (holder : String) :
    unlock_rule locks ruleId holder true =
      Except.ok (locks.filter (fun l2 => ¬ l2.ruleId == ruleId)) := by
  unfold unlock_rule
  split
  · rename_i l hl
    rw [if_neg (by rintro ⟨_, hforce⟩; exact absurd hforce (by simp))]
  · rfl

/-- C10: a rule that is the parent of at least one other rule (of any status)
cannot be deleted — delete_rule raises and leaves the rules table unchanged
even with force = true — whereas force = true does bypass the approval-status
and inactive-status preconditions for a childless rule. -/
theorem c10_child_check_unforceable (st : CrudState) (now ruleId : Nat)
    (actionBy userGroup : String) (auditOut : Except String Unit) :
    ((∃ r ∈ st.rules, r.parentRuleId = some ruleId) →
      ∀ force : Bool,
        (∃ msg, (delete_rule st now ruleId actionBy userGroup force auditOut).1 =
          Except.error msg) ∧
        (delete_rule st now ruleId actionBy userGroup force auditOut).2.rules = st.rules) ∧
    (∀ old : BrmRule, findRuleRow st.rules ruleId = some old →
      ¬ old.isGlobal = 1 →
      (¬ ∃ r ∈ st.rules, r.parentRuleId = some ruleId) →
      auditOut = Except.ok () →
      (delete_rule st now ruleId actionBy userGroup true auditOut).1 = Except.ok () ∧
      (delete_rule st now ruleId actionBy userGroup true auditOut).2.rules =
        st.rules.filter (fun r => ¬ r.ruleId == ruleId)) := by
  constructor
  · intro hex force
    have hany : st.rules.any (fun r => r.parentRuleId == some ruleId) = true := by
      rcases hex with ⟨r, hr1, hr2⟩
      exact List.any_eq_true.mpr ⟨r, hr1, by simp [hr2]⟩
    have key : ∃ msg st2, delete_rule st now ruleId actionBy userGroup force auditOut =
        (Except.error msg, st2) ∧ st2.rules = st.rules := by
      unfold delete_rule
      split
      · exact ⟨_, _, rfl, rfl⟩
      · split
        · exact ⟨_, _, rfl, rfl⟩
        · split_ifs with h1 h2 h3 h4 <;>
            first
            | exact ⟨_, _, rfl, rfl⟩
            | exact absurd hany h4
    obtain ⟨msg, st2, heq, hst⟩ := key
    rw [heq]
    exact ⟨⟨msg, rfl⟩, hst⟩
  · intro old hfind hglob hnochild haudit
    have hany : st.rules.any (fun r => r.parentRuleId == some ruleId) = false := by
      rw [← Bool.not_eq_true, List.any_eq_true]
      rintro ⟨r, hr1, hr2⟩
      exact hnochild ⟨r, hr1, by simpa using hr2⟩
    obtain ⟨locks1, hlock⟩ := lock_rule_force_ok st.locks now ruleId actionBy
    have hc1 : ¬ ((old.isGlobal == 1) = true ∧ ¬ userGroup = "Admin") := by
      rintro ⟨hg, _⟩
      exact hglob (by simpa using hg)
    have hc2 : ¬ (¬ old.approvalStatus = "APPROVED" ∧ (true : Bool) = false) := by
      rintro ⟨_, hforce⟩
      exact absurd hforce (by simp)
    have hc3 : ¬ (¬ old.status = "INACTIVE" ∧ (true : Bool) = false) := by
      rintro ⟨_, hforce⟩
      exact absurd hforce (by simp)
    have hc4 : ¬ ((st.rules.any fun r => r.parentRuleId == some ruleId) = true) := by
      rw [hany]
      simp
    unfold delete_rule
    split
    · rename_i e heq
      rw [hlock] at heq
      exact absurd heq (by simp)
    · rename_i locks2 heq
      split
      · rename_i hfind2
        rw [hfind] at hfind2
        exact absurd hfind2 (by simp)
      · rename_i old2 hfind2
        rw [hfind] at hfind2
        have hold : old = old2 := Option.some.inj hfind2
        subst hold
        rw [if_neg hc1, if_neg hc2, if_neg hc3, if_neg hc4]
        split
        · rename_i e heq2
          rw [haudit] at heq2
          simp [insert_audit_log] at heq2
        · rename_i a heq2
          split
          · rename_i e heq3
            rw [unlock_rule_force_ok] at heq3
            exact absurd heq3 (by simp)
          · exact ⟨rfl, rfl⟩

/-- The parent rule of the C10 witness: neither approved nor inactive. -/
def c10r1 : BrmRule := ⟨1, none, 0, 0, "OTHER", none, none, "PENDING", "ACTIVE"⟩

/-- An active child of rule 1 in the C10 witness. -/
def c10r2 : BrmRule := ⟨2, some 1, 0, 0, "OTHER", none, none, "PENDING", "ACTIVE"⟩

/-- C10 witness: with child 2 present, deleting rule 1 fails and leaves the
table unchanged even with force; with the child absent the same force=true
call bypasses the unmet approval and inactive checks and deletes rule 1. -/
theorem c10_witness :
    ((∃ msg, (delete_rule ⟨[c10r1, c10r2], []⟩ 50 1 "root" "Admin" true
        (Except.ok ())).1 = Except.error msg) ∧
      (delete_rule ⟨[c10r1, c10r2], []⟩ 50 1 "root" "Admin" true
        (Except.ok ())).2.rules = [c10r1, c10r2]) ∧
    ((delete_rule ⟨[c10r1], []⟩ 50 1 "root" "Admin" true (Except.ok ())).1 =
        Except.ok () ∧
      (delete_rule ⟨[c10r1], []⟩ 50 1 "root" "Admin" true (Except.ok ())).2.rules = []) := by
  constructor
  · exact (c10_child_check_unforceable ⟨[c10r1, c10r2], []⟩ 50 1 "root" "Admin"
      (Except.ok ())).1 ⟨c10r2, by simp, rfl⟩ true
  · have h := (c10_child_check_unforceable ⟨[c10r1], []⟩ 50 1 "root" "Admin"
      (Except.ok ())).2 c10r1 rfl (by decide) (by simp [c10r1]) rfl
    refine ⟨h.1, ?_⟩
    rw [h.2]
    decide

end BRM
